import Mathlib

/-!
# Verification of the expensor delivery pipeline

A shallow embedding of the expensor expense-tracking pipeline:
the extraction engine (pkg/reader/gmail), the generic buffered batch
writer (pkg/writer/buffered), the PostgreSQL sink
(backend/pkg/writer/postgres with migrations/001_create_transactions.sql),
the Google Sheets sink with its rate-limit retry wrapper
(pkg/writer/sheets), and the acknowledgment-gated consumption protocol
wiring them together (backend/internal/daemon, cmd/expensor).

Machine floating point amounts are modelled as exact rationals; times are
modelled as broken-down wall-clock records.
-/

namespace Expensor

/-- Transaction record, from pkg/api TransactionDetails. Amount is modelled
as an exact rational. -/
structure TransactionDetails where
  amount : ℚ := 0
  timestamp : String := ""
  merchantInfo : String := ""
  category : String := ""
  bucket : String := ""
  source : String := ""
  messageID : String := ""
  currency : String := ""
  originalAmount : Option ℚ := none
  originalCurrency : Option String := none
  exchangeRate : Option ℚ := none
  description : String := ""
  labels : List String := []
deriving Repr, DecidableEq

/-- Broken-down wall-clock time, modelling the fields of a Go time.Time
that the pipeline reads (formatting and parsing). -/
structure GoTime where
  year : Nat
  month : Nat
  day : Nat
  hour : Nat
  minute : Nat
  second : Nat
deriving Repr, DecidableEq

/-- The character for a single decimal digit value. -/
def digitChar (n : Nat) : Char := Char.ofNat ('0'.toNat + n)

/-- Decimal digit characters of a natural number, most significant first
(empty for zero), as produced by Go integer formatting before padding. -/
def natChars (n : Nat) : List Char := ((Nat.digits 10 n).map digitChar).reverse

/-- Zero-padded fixed-width decimal rendering, as Go layout verbs such as
2006 (width 4) and 01 (width 2) produce. -/
def padNat (width n : Nat) : List Char :=
  List.replicate (width - (natChars n).length) '0' ++ natChars n

/-- The characters of the time.DateTime layout output
(2006-01-02 15:04:05). -/
def dateTimeChars (t : GoTime) : List Char :=
  padNat 4 t.year ++ ['-'] ++ padNat 2 t.month ++ ['-'] ++ padNat 2 t.day ++
    [' '] ++ padNat 2 t.hour ++ [':'] ++ padNat 2 t.minute ++ [':'] ++ padNat 2 t.second

/-- Go time.Time.Format with the time.DateTime layout
(2006-01-02 15:04:05), used by ExtractTransactionDetails for the record
timestamp. -/
def formatDateTime (t : GoTime) : String :=
  ⟨dateTimeChars t⟩

/-! ## Extraction engine (pkg/reader/gmail ExtractTransactionDetails)

The two rule patterns are regular expressions of a restricted shape: a
sequence of literal characters, character classes, greedy one-or-more
class repetitions and fixed-count class repetitions, with exactly one
capture group. The matcher below implements Go regexp find-submatch
semantics for that shape: leftmost match, greedy quantifiers with
backtracking. -/

/-- One regular-expression atom of the restricted pattern shape. -/
inductive Atom where
  /-- A literal character. -/
  | lit (c : Char)
  /-- A single character of a class. -/
  | cls (p : Char → Bool)
  /-- Greedy one-or-more repetition of a class. -/
  | plus (p : Char → Bool)
  /-- Exactly n characters of a class. -/
  | repn (p : Char → Bool) (n : Nat)

/-- Consume exactly n class characters, returning the remainder. -/
def matchRepn (p : Char → Bool) : Nat → List Char → Option (List Char)
  | 0, s => some s
  | _ + 1, [] => none
  | n + 1, c :: cs => if p c then matchRepn p n cs else none

/-- All ways one atom can match a prefix of the input, as remainders in
backtracking preference order (greedy: longest consumption first). -/
def matchAtom : Atom → List Char → List (List Char)
  | .lit _, [] => []
  | .lit c, x :: xs => if x = c then [xs] else []
  | .cls _, [] => []
  | .cls p, x :: xs => if p x then [xs] else []
  | .repn p n, s => (matchRepn p n s).toList
  | .plus p, s =>
      let len := (s.takeWhile p).length
      (List.range len).map (fun i => s.drop (len - i))

/-- All ways a sequence of atoms can match a prefix of the input, as
remainders in backtracking preference order. -/
def matchSeq : List Atom → List Char → List (List Char)
  | [], s => [s]
  | a :: as, s => (matchAtom a s).flatMap (matchSeq as)

/-- A pattern with exactly one capture group: atoms before the group, the
group's atoms, and atoms after the group. Both rule patterns of the
extraction engine have this shape. -/
structure Pattern where
  before : List Atom
  group : List Atom
  after : List Atom

/-- Try to match the pattern at the start of the input, returning the
first capture group of the first match in backtracking order. -/
def matchCaptureAt (pat : Pattern) (s : List Char) : Option (List Char) :=
  (matchSeq pat.before s).findSome? fun r1 =>
    (matchSeq pat.group r1).findSome? fun r2 =>
      if (matchSeq pat.after r2).isEmpty then none
      else some (r1.take (r1.length - r2.length))

/-- Go regexp FindStringSubmatch restricted to one capture group: the
first capture group of the leftmost match, or none when the pattern does
not match. -/
def findSubmatch (pat : Pattern) : List Char → Option (List Char)
  | [] => matchCaptureAt pat []
  | x :: xs =>
      match matchCaptureAt pat (x :: xs) with
      | some g => some g
      | none => findSubmatch pat xs

/-- Model of strings.ReplaceAll applied with an old string of a comma and
an empty new string, as the extraction engine performs on the amount
capture group. -/
def stripCommas (s : String) : String := ⟨s.data.filter (fun c => c ≠ ',')⟩

/-- Numeric value of a digit string. -/
def natOfChars (cs : List Char) : Nat :=
  cs.foldl (fun a c => 10 * a + (c.toNat - '0'.toNat)) 0

/-- Model of strconv.ParseFloat on the plain decimal forms the extraction
patterns can produce: a run of digits with at most one decimal point and
at least one digit. Everything else fails. -/
def parseFloat (s : String) : Option ℚ :=
  let cs := s.data
  let intPart := cs.takeWhile Char.isDigit
  let rest := cs.drop intPart.length
  match rest with
  | [] => if intPart.isEmpty then none else some (mkRat (natOfChars intPart) 1)
  | '.' :: frac =>
      if frac.all Char.isDigit ∧ ¬(intPart.isEmpty ∧ frac.isEmpty) then
        some (mkRat (natOfChars intPart * 10 ^ frac.length + natOfChars frac) (10 ^ frac.length))
      else none
  | _ => none

/-- ExtractTransactionDetails from pkg/reader/gmail: timestamp is the
receipt time in the DateTime layout; the amount is the first capture
group of the amount pattern with commas stripped and parsed, left at zero
on no match or parse failure; the merchant is the first capture group of
the merchant pattern, left empty on no match. -/
def ExtractTransactionDetails (emailBody : String) (amountRegex merchantRegex : Pattern)
    (receivedTime : GoTime) : TransactionDetails :=
  let base : TransactionDetails := { timestamp := formatDateTime receivedTime }
  let withAmount :=
    match findSubmatch amountRegex emailBody.data with
    | some g =>
        match parseFloat (stripCommas ⟨g⟩) with
        | some a => { base with amount := a }
        | none => base
    | none => base
  match findSubmatch merchantRegex emailBody.data with
  | some g => { withAmount with merchantInfo := (⟨g⟩ : String) }
  | none => withAmount

/-- Go regexp digit class. -/
def isDigitChar (c : Char) : Bool := c.isDigit

/-- Go regexp word-character class (ASCII letters, digits, underscore). -/
def isWordChar (c : Char) : Bool := c.isAlphanum || c = '_'

/-- Character class of the amount capture group: digits and commas. -/
def isDigitOrComma (c : Char) : Bool := c.isDigit || c = ','

/-- The rule amount pattern of the section-8 scenario. -/
def amountPatternRs : Pattern :=
  { before := [.lit 'R', .lit 's', .lit '.']
    group := [.plus isDigitOrComma, .lit '.', .repn isDigitChar 2]
    after := [] }

/-- The rule merchant pattern of the section-8 scenario. -/
def merchantPatternAtOn : Pattern :=
  { before := [.lit 'a', .lit 't', .lit ' ']
    group := [.plus isWordChar]
    after := [.lit ' ', .lit 'o', .lit 'n'] }

/-! ## RFC 3339 timestamp parsing (backend/pkg/writer/postgres)

The postgres writer parses the record timestamp with Go time.Parse and
the time.RFC3339 layout (2006-01-02T15:04:05Z07:00). The model below
checks the positional shape that layout demands: in particular the
literal T separator at index 10 and a trailing zone designator. -/

/-- Character of a string at an index, a space when out of range. -/
def charAt (cs : List Char) (i : Nat) : Char := cs.getD i ' '

/-- Two consecutive decimal digits starting at an index. -/
def twoDigits (cs : List Char) (i : Nat) : Bool :=
  (charAt cs i).isDigit && (charAt cs (i + 1)).isDigit

/-- Numeric value of the two digits starting at an index. -/
def twoDigitVal (cs : List Char) (i : Nat) : Nat :=
  ((charAt cs i).toNat - '0'.toNat) * 10 + ((charAt cs (i + 1)).toNat - '0'.toNat)

/-- A valid RFC 3339 zone designator: the letter Z or a signed
hour-minute offset. -/
def validOffset : List Char → Bool
  | ['Z'] => true
  | [sgn, a, b, ':', c, d] =>
      (sgn = '+' || sgn = '-') && a.isDigit && b.isDigit && c.isDigit && d.isDigit
  | _ => false

/-- Model of Go time.Parse with the time.RFC3339 layout: a four-digit
year, dashed month and day, the literal T separator, a colon-separated
clock and a zone designator, with the calendar fields in range. Returns
none whenever the input does not have that shape. -/
def rfc3339Parse (s : String) : Option GoTime :=
  if charAt s.data 10 = 'T' then
    if 20 ≤ s.data.length
        ∧ (s.data.take 4).all Char.isDigit ∧ charAt s.data 4 = '-'
        ∧ twoDigits s.data 5 = true ∧ charAt s.data 7 = '-' ∧ twoDigits s.data 8 = true
        ∧ twoDigits s.data 11 = true ∧ charAt s.data 13 = ':' ∧ twoDigits s.data 14 = true
        ∧ charAt s.data 16 = ':' ∧ twoDigits s.data 17 = true
        ∧ validOffset (s.data.drop 19) = true
        ∧ 1 ≤ twoDigitVal s.data 5 ∧ twoDigitVal s.data 5 ≤ 12
        ∧ 1 ≤ twoDigitVal s.data 8 ∧ twoDigitVal s.data 8 ≤ 31
        ∧ twoDigitVal s.data 11 ≤ 23 ∧ twoDigitVal s.data 14 ≤ 59 ∧ twoDigitVal s.data 17 ≤ 59 then
      some ⟨natOfChars (s.data.take 4), twoDigitVal s.data 5, twoDigitVal s.data 8,
            twoDigitVal s.data 11, twoDigitVal s.data 14, twoDigitVal s.data 17⟩
    else none
  else none

/-! ## Relational sink (backend/pkg/writer/postgres writeBatch)

The persisted state of migrations/001_create_transactions.sql: a
transactions table with a unique constraint on message_id and generated
integer identifiers, and a transaction_labels table with a composite
uniqueness constraint on (transaction_id, label). -/

namespace Postgres

/-- One persisted transactions row. -/
structure Row where
  id : Nat
  messageId : String
  amount : ℚ
  currency : String
  originalAmount : Option ℚ
  originalCurrency : Option String
  exchangeRate : Option ℚ
  timestamp : GoTime
  merchantInfo : String
  category : String
  bucket : String
  source : String
  description : String
  createdAt : GoTime
  updatedAt : GoTime
deriving Repr, DecidableEq

/-- The database: the transactions rows, the transaction_labels pairs,
and the next generated row identifier. -/
structure DB where
  nextId : Nat
  rows : List Row
  labels : List (Nat × String)
deriving Repr, DecidableEq

/-- A freshly migrated empty database. -/
def emptyDB : DB := ⟨0, [], []⟩

/-- The currency actually written: INR when the record carries none. -/
def currencyOf (t : TransactionDetails) : String :=
  if t.currency = "" then "INR" else t.currency

/-- The timestamp actually written: the record timestamp parsed as
RFC 3339, falling back to the wall-clock time of the flush on parse
failure. -/
def rowTimestamp (now : GoTime) (t : TransactionDetails) : GoTime :=
  (rfc3339Parse t.timestamp).getD now

/-- The mutable columns of a transactions row: every column the upsert's
DO UPDATE clause overwrites except updated_at. -/
structure MutableCols where
  amount : ℚ
  currency : String
  originalAmount : Option ℚ
  originalCurrency : Option String
  exchangeRate : Option ℚ
  timestamp : GoTime
  merchantInfo : String
  category : String
  bucket : String
  source : String
  description : String
deriving Repr, DecidableEq

/-- The mutable column values a record produces at a flush. -/
def mutableOf (now : GoTime) (t : TransactionDetails) : MutableCols :=
  ⟨t.amount, currencyOf t, t.originalAmount, t.originalCurrency, t.exchangeRate,
   rowTimestamp now t, t.merchantInfo, t.category, t.bucket, t.source, t.description⟩

/-- The mutable column values of a persisted row. -/
def Row.mutables (r : Row) : MutableCols :=
  ⟨r.amount, r.currency, r.originalAmount, r.originalCurrency, r.exchangeRate,
   r.timestamp, r.merchantInfo, r.category, r.bucket, r.source, r.description⟩

/-- The row the conflict branch of the upsert produces: all mutable
columns overwritten, updated_at refreshed, identifier and created_at
kept. -/
def updateRow (now : GoTime) (t : TransactionDetails) (r : Row) : Row :=
  { r with
    amount := t.amount, currency := currencyOf t,
    originalAmount := t.originalAmount, originalCurrency := t.originalCurrency,
    exchangeRate := t.exchangeRate, timestamp := rowTimestamp now t,
    merchantInfo := t.merchantInfo, category := t.category, bucket := t.bucket,
    source := t.source, description := t.description, updatedAt := now }

/-- The row the insert branch of the upsert produces. -/
def insertRow (now : GoTime) (id : Nat) (t : TransactionDetails) : Row :=
  { id := id, messageId := t.messageID,
    amount := t.amount, currency := currencyOf t,
    originalAmount := t.originalAmount, originalCurrency := t.originalCurrency,
    exchangeRate := t.exchangeRate, timestamp := rowTimestamp now t,
    merchantInfo := t.merchantInfo, category := t.category, bucket := t.bucket,
    source := t.source, description := t.description,
    createdAt := now, updatedAt := now }

/-- INSERT INTO transactions ... ON CONFLICT (message_id) DO UPDATE ...
RETURNING id: insert a new row under a fresh identifier, or on a
message_id conflict overwrite the existing row's mutable columns and
refresh updated_at (the BEFORE UPDATE trigger), returning the row
identifier either way. -/
def upsert (now : GoTime) (db : DB) (t : TransactionDetails) : DB × Nat :=
  match db.rows.find? (fun r => r.messageId == t.messageID) with
  | some old =>
      ({ db with
          rows := db.rows.map (fun r =>
            if r.messageId == t.messageID then updateRow now t r else r) },
       old.id)
  | none =>
      ({ db with
          nextId := db.nextId + 1
          rows := db.rows ++ [insertRow now db.nextId t] },
       db.nextId)

/-- INSERT INTO transaction_labels (transaction_id, label) VALUES ... ON
CONFLICT (transaction_id, label) DO NOTHING: append the pairs that are
not yet present; a pair already present is skipped, never an error. -/
def insertLabels (db : DB) (txnID : Nat) (labels : List String) : DB :=
  labels.foldl
    (fun d l => if (txnID, l) ∈ d.labels then d else { d with labels := d.labels ++ [(txnID, l)] })
    db

/-- The full effect of one record inside the flush transaction: its
upsert followed by its label inserts. -/
def applyTxn (now : GoTime) (d : DB) (t : TransactionDetails) : DB :=
  let p := upsert now d t
  insertLabels p.1 p.2 t.labels

/-- The committed effect of a whole batch when no statement fails. -/
def applyBatch (now : GoTime) (db : DB) (batch : List TransactionDetails) : DB :=
  batch.foldl (applyTxn now) db

/-- Failure injection for one writeBatch call: whether the scan of the
i-th row upsert fails, whether the i-th record's label insert fails, and
whether the final commit fails. Models database errors surfacing at
individual statements of the transaction. -/
structure Faults where
  rowFail : Nat → Bool
  labelFail : Nat → Bool
  commitFail : Bool

/-- No statement of the transaction fails. -/
def noFaults : Faults := ⟨fun _ => false, fun _ => false, false⟩

/-- The result-processing loop of writeBatch: per record, the scan of the
upsert result, then the label insert when the record carries labels; the
commit runs only after every record succeeded. -/
def writeBatchGo (f : Faults) (now : GoTime) : DB → Nat → List TransactionDetails → Except String DB
  | d, _, [] => if f.commitFail then .error "committing transaction" else .ok d
  | d, i, t :: ts =>
      if f.rowFail i then .error ("inserting transaction " ++ toString i)
      else if ¬t.labels.isEmpty ∧ f.labelFail i then
        .error ("inserting labels for transaction " ++ toString i)
      else writeBatchGo f now (applyTxn now d t) (i + 1) ts

/-- writeBatch: all row upserts and label inserts of the batch inside one
database transaction, committed only after every statement succeeded. An
error anywhere aborts the whole call. An empty batch does nothing. -/
def writeBatch (f : Faults) (now : GoTime) (db : DB) (batch : List TransactionDetails) :
    Except String DB :=
  if batch.isEmpty then .ok db else writeBatchGo f now db 0 batch

/-- One flush attempt as the caller observes it: on success the committed
state, on error the deferred rollback leaves the database unchanged and
the one error stands for the whole batch. -/
def flushAttempt (f : Faults) (now : GoTime) (db : DB) (batch : List TransactionDetails) :
    DB × Option String :=
  match writeBatch f now db batch with
  | .ok db2 => (db2, none)
  | .error e => (db, some e)

/-- The persisted rows carrying a given message_id. -/
def rowsFor (db : DB) (m : String) : List Row :=
  db.rows.filter (fun r => r.messageId == m)

/-- The unique constraint on message_id: at most one row per identifier. -/
def UniqueMessageIds (db : DB) : Prop :=
  ∀ m, (rowsFor db m).length ≤ 1

end Postgres

/-! ## Run loops

Both batch writers run a single consumption loop woken by cancellation,
a timer tick, input-channel close, or receipt of a record. A run is
modelled as a finite schedule of such wake events. -/

/-- A wake condition of a writer run loop select. -/
inductive Event where
  | cancel
  | timerTick
  | chanClosed
  | recv (t : TransactionDetails)
deriving Repr, DecidableEq

/-- What a writer's Write returns when its loop terminates: the context
cancellation error, or an error of the sink flush. A terminating clean
return carries no GoError. -/
inductive GoError where
  | canceled
  | flushErr (e : String)
deriving Repr, DecidableEq

/-! ## Generic buffered batch writer (pkg/writer/buffered) -/

namespace Buffered

/-- The wake condition that triggered a flusher invocation. -/
inductive Trigger where
  | count
  | timer
  | closed
  | cancel
deriving Repr, DecidableEq

/-- One recorded invocation of the sink flusher. -/
structure FlushCall where
  trigger : Trigger
  batch : List TransactionDetails
  result : Option String
deriving Repr, DecidableEq

/-- Outcome oracle for the sink flusher: the error, if any, that the n-th
flusher invocation of a run returns on its batch. -/
def Oracle := Nat → List TransactionDetails → Option String

/-- State of the buffered writer run loop: the buffer and the trace of
flusher invocations so far. -/
structure WriterState where
  buffer : List TransactionDetails
  calls : List FlushCall
deriving Repr, DecidableEq

/-- A fresh writer: empty buffer, no flusher invocations. -/
def initState : WriterState := ⟨[], []⟩

/-- Writer.flush: nothing happens on an empty buffer; otherwise the
buffer is copied and reset, and only then is the copy handed to the
flusher, whose error (if any) is returned. The buffer is therefore empty
after the call whether or not the flusher failed. -/
def flush (oracle : Oracle) (tr : Trigger) (s : WriterState) : WriterState × Option String :=
  if s.buffer.isEmpty then (s, none)
  else
    let toFlush := s.buffer
    let res := oracle s.calls.length toFlush
    ({ buffer := [], calls := s.calls ++ [⟨tr, toFlush, res⟩] }, res)

/-- One iteration of the run loop of buffered Writer.Write. The second
component is none while the loop keeps running, and some r when Write
returns with result r (none standing for a nil error). On cancellation
(handleShutdown) a flush failure is only logged and context.Canceled
returned; on a timer tick (handleTimerFlush) a failure is only logged
and the loop continues; on channel close (handleTransaction with the
channel drained) the flush result is returned; on receipt the record is
appended, and when the buffer reaches the batch size the flush runs with
any failure only logged, the loop continuing either way. -/
def step (oracle : Oracle) (batchSize : Nat) (s : WriterState) :
    Event → WriterState × Option (Option GoError)
  | .cancel =>
      let p := flush oracle .cancel s
      (p.1, some (some .canceled))
  | .timerTick =>
      let p := flush oracle .timer s
      (p.1, none)
  | .chanClosed =>
      let p := flush oracle .closed s
      match p.2 with
      | some e => (p.1, some (some (.flushErr e)))
      | none => (p.1, some none)
  | .recv t =>
      let s1 : WriterState := { s with buffer := s.buffer ++ [t] }
      if batchSize ≤ s1.buffer.length then
        let p := flush oracle .count s1
        (p.1, none)
      else (s1, none)

/-- The run loop over a finite schedule of wake events, stopping at the
first terminating event. The outer none means the loop is still running
after the schedule. -/
def run (oracle : Oracle) (batchSize : Nat) :
    WriterState → List Event → WriterState × Option (Option GoError)
  | s, [] => (s, none)
  | s, e :: es =>
      match step oracle batchSize s e with
      | (s2, some r) => (s2, some r)
      | (s2, none) => run oracle batchSize s2 es

/-- The flusher invocations of a run from a fresh writer. -/
def runCalls (oracle : Oracle) (batchSize : Nat) (events : List Event) : List FlushCall :=
  (run oracle batchSize initState events).1.calls

end Buffered

/-! ## Postgres Write loop with acknowledgments
(backend/pkg/writer/postgres Writer.Write) -/

namespace Postgres

/-- An observable action of the postgres Write loop: a writeBatch call
that committed, one that failed, or an acknowledgment push of a message
identifier onto the acknowledgment channel. -/
inductive Action where
  | flushOk (batch : List TransactionDetails)
  | flushFail (batch : List TransactionDetails) (e : String)
  | ack (msgId : String)
deriving Repr, DecidableEq

/-- Per-call fault oracle: the statement faults of the n-th writeBatch
call of a run. -/
def FaultOracle := Nat → Faults

/-- The wall clock at the n-th writeBatch call of a run. -/
def Clock := Nat → GoTime

/-- State of the postgres Write run loop: the pending batch, the
database, the number of writeBatch calls made, and the action trace. -/
structure LoopState where
  batch : List TransactionDetails
  db : DB
  flushIdx : Nat
  trace : List Action
deriving Repr, DecidableEq

/-- A fresh run over a given database. -/
def initLoop (db : DB) : LoopState := ⟨[], db, 0, []⟩

/-- The identifiers pushed onto the acknowledgment channel after a
successful flush: every record of the batch whose MessageID is nonempty,
in batch order. -/
def acksOfBatch (batch : List TransactionDetails) : List String :=
  (batch.filter (fun t => t.messageID != "")).map (fun t => t.messageID)

/-- The flush closure of postgres Writer.Write: nothing on an empty
batch; otherwise one writeBatch call. On success the acknowledgments are
pushed and only then is the batch reset; on error the error is returned
with the batch retained, since the reset happens only after a successful
writeBatch and the acknowledgment pushes. -/
def loopFlush (fo : FaultOracle) (clock : Clock) (s : LoopState) : LoopState × Option String :=
  if s.batch.isEmpty then (s, none)
  else
    match writeBatch (fo s.flushIdx) (clock s.flushIdx) s.db s.batch with
    | .error e =>
        ({ s with
            flushIdx := s.flushIdx + 1
            trace := s.trace ++ [.flushFail s.batch e] }, some e)
    | .ok db2 =>
        ({ batch := []
           db := db2
           flushIdx := s.flushIdx + 1
           trace := s.trace ++ (.flushOk s.batch :: (acksOfBatch s.batch).map .ack) }, none)

/-- One iteration of the postgres Write select loop: on cancellation a
final flush failure is only logged and the context error returned; on
channel close the flush result is returned; on receipt the record is
appended and a count-threshold flush failure terminates the run with
that error; on a timer tick a flush failure likewise terminates the run
with that error. -/
def loopStep (fo : FaultOracle) (clock : Clock) (batchSize : Nat) (s : LoopState) :
    Event → LoopState × Option (Option GoError)
  | .cancel =>
      let p := loopFlush fo clock s
      (p.1, some (some .canceled))
  | .chanClosed =>
      let p := loopFlush fo clock s
      (p.1, some (p.2.map GoError.flushErr))
  | .recv t =>
      let s1 : LoopState := { s with batch := s.batch ++ [t] }
      if batchSize ≤ s1.batch.length then
        let p := loopFlush fo clock s1
        match p.2 with
        | some e => (p.1, some (some (.flushErr e)))
        | none => (p.1, none)
      else (s1, none)
  | .timerTick =>
      let p := loopFlush fo clock s
      match p.2 with
      | some e => (p.1, some (some (.flushErr e)))
      | none => (p.1, none)

/-- The postgres run loop over a finite schedule of wake events. -/
def loopRun (fo : FaultOracle) (clock : Clock) (batchSize : Nat) :
    LoopState → List Event → LoopState × Option (Option GoError)
  | s, [] => (s, none)
  | s, e :: es =>
      match loopStep fo clock batchSize s e with
      | (s2, some r) => (s2, some r)
      | (s2, none) => loopRun fo clock batchSize s2 es

/-- The action trace of a postgres writer run from a fresh loop state. -/
def pipelineTrace (fo : FaultOracle) (clock : Clock) (batchSize : Nat) (db : DB)
    (events : List Event) : List Action :=
  (loopRun fo clock batchSize (initLoop db) events).1.trace

end Postgres

/-- The identifiers an action trace pushes onto the acknowledgment
channel, in order. -/
def acksOf (tr : List Postgres.Action) : List String :=
  tr.filterMap fun a =>
    match a with
    | .ack m => some m
    | _ => none

namespace Gmail

/-- The acknowledgment loop of the gmail Reader (handleAcknowledgments):
every identifier received from the acknowledgment channel leads to one
markAsRead call, i.e. one removal of the UNREAD label for that message.
The result lists the messages marked consumed, in order of receipt. -/
def handleAcknowledgments : List String → List String
  | [] => []
  | msgId :: rest => msgId :: handleAcknowledgments rest

end Gmail

/-- The messages the backend daemon pipeline (runner.go: gmail reader
plus postgres writer sharing one acknowledgment channel) marks consumed
during a writer run. -/
def daemonMarkedConsumed (fo : Postgres.FaultOracle) (clock : Postgres.Clock)
    (batchSize : Nat) (db : Postgres.DB) (events : List Event) : List String :=
  Gmail.handleAcknowledgments (acksOf (Postgres.pipelineTrace fo clock batchSize db events))

/-! ## Google Sheets sink (pkg/writer/sheets flushBatch) -/

namespace Sheets

/-- An error of the Spreadsheets.Values.Append call: a googleapi.Error
carrying an HTTP status code, or any other failure. -/
inductive AppendErr where
  | googleApi (code : Nat)
  | other (msg : String)
deriving Repr, DecidableEq

/-- The RetryIf predicate of flushBatch: retry exactly when the error is
a googleapi.Error with status 429 (http.StatusTooManyRequests). -/
def isRateLimited : AppendErr → Bool
  | .googleApi code => code == 429
  | .other _ => false

/-- Outcome oracle for the append network call: the error, if any, of
the i-th attempt of a flush. -/
def AppendOracle := Nat → Option AppendErr

/-- The observable outcome of the retry wrapper: the surfaced result,
how many append calls were made, how many of them persisted the batch,
and the inter-attempt delays performed (in seconds). -/
structure RetryOutcome where
  result : Option AppendErr
  calls : Nat
  successes : Nat
  delays : List Nat
deriving Repr, DecidableEq

/-- retry.Do with RetryIf isRateLimited, Attempts n, Delay of 60 seconds
and LastErrorOnly: make the call; stop on success; surface a
non-retryable error immediately; otherwise wait and retry while attempts
remain, ending with the last error. The wrapper sets no DelayType, so
the library's default exponential backoff applies: before the retry
following attempt i (0-based) it waits the configured 60-second base
delay shifted left by i, i.e. 60 seconds, then 120 seconds. The writer
only ever uses a positive attempt budget (3). -/
def retryDo (oracle : AppendOracle) : Nat → Nat → RetryOutcome
  | 0, _ => ⟨none, 0, 0, []⟩
  | 1, i =>
      match oracle i with
      | none => ⟨none, 1, 1, []⟩
      | some e => ⟨some e, 1, 0, []⟩
  | n + 2, i =>
      match oracle i with
      | none => ⟨none, 1, 1, []⟩
      | some e =>
          if isRateLimited e then
            let r := retryDo oracle (n + 1) (i + 1)
            ⟨r.result, r.calls + 1, r.successes, (60 * 2 ^ i) :: r.delays⟩
          else ⟨some e, 1, 0, []⟩

/-- flushBatch of the sheets writer: nothing to do on an empty batch;
otherwise one retry-wrapped append of the whole batch with an attempt
budget of 3. Returns the surfaced error, if any, and the number of times
the batch was appended (persisted) to the sheet. -/
def flushBatch (oracle : AppendOracle) (batch : List TransactionDetails) :
    Option AppendErr × Nat :=
  if batch.isEmpty then (none, 0)
  else
    let r := retryDo oracle 3 0
    (r.result, r.successes)

end Sheets

/-- The actions of a generic buffered writer run, in the shared action
vocabulary of the pipeline: each flusher invocation becomes a successful
or failed flush. The buffered Writer.Write of pkg/writer/buffered takes
no acknowledgment channel and its flusher returns only an error, so no
acknowledgment action can arise. -/
def bufferedActions (calls : List Buffered.FlushCall) : List Postgres.Action :=
  calls.map fun c =>
    match c.result with
    | none => .flushOk c.batch
    | some e => .flushFail c.batch e

/-- The messages the cmd/expensor pipeline (run.go: gmail reader and
sheets writer, connected only by the record channel) marks consumed
during a writer run: the acknowledgment stream is whatever the sheets
writer emits through its buffered run. -/
def runExpensorMarkedConsumed (oracle : Buffered.Oracle) (batchSize : Nat)
    (events : List Event) : List String :=
  Gmail.handleAcknowledgments (acksOf (bufferedActions (Buffered.runCalls oracle batchSize events)))

/-- An acknowledgment of a message at trace position i is justified: some
earlier position of the trace is a successful flush of a batch containing
a record with that message identifier. -/
def ackPreceded (tr : List Postgres.Action) (i : Nat) (msgId : String) : Bool :=
  (List.range i).any fun j =>
    match tr[j]? with
    | some (.flushOk b) => b.any (fun t => t.messageID == msgId)
    | _ => false

/-- Some successfully flushed batch of the trace contains a record with
the given message identifier. -/
def flushedOk (tr : List Postgres.Action) (msgId : String) : Bool :=
  tr.any fun a =>
    match a with
    | .flushOk b => b.any (fun t => t.messageID == msgId)
    | _ => false

/-- Sample extracted records for concrete runs. -/
def sampleRecord : TransactionDetails := { messageID := "msg-1" }

/-- A second sample record, distinct from the first. -/
def sampleRecord2 : TransactionDetails := { messageID := "msg-2" }

/-- The section-8 flush-count scenario: 25 records arrive and then the
input channel closes, the flush interval never elapsing. -/
def flushScenarioEvents : List Event :=
  List.replicate 25 (Event.recv sampleRecord) ++ [Event.chanClosed]

/-- A sink flusher that always fails. -/
def alwaysFailFlusher : Buffered.Oracle := fun _ _ => some "flush failed"

/-- A sink flusher whose first invocation fails and whose later
invocations succeed. -/
def failFirstFlusher : Buffered.Oracle := fun n _ => if n = 0 then some "flush failed" else none

/-- An append call that is rate limited twice and then succeeds. -/
def rateLimitedTwice : Sheets.AppendOracle :=
  fun i => if i < 2 then some (.googleApi 429) else none

/-- A fault oracle under which every row scan fails. -/
def rowAlwaysFails : Postgres.FaultOracle :=
  fun _ => ⟨fun _ => true, fun _ => false, false⟩

/-- A fault oracle under which nothing ever fails. -/
def neverFails : Postgres.FaultOracle := fun _ => Postgres.noFaults

/-- A constant wall clock for concrete runs. -/
def fixedClock : Postgres.Clock := fun _ => ⟨2025, 1, 1, 0, 0, 0⟩

end Expensor

/-! ## Theorems -/

namespace Expensor

/-- The scenario literal 1234.56 as a normalized rational. -/
theorem ratLit_1234_56 : (1234.56 : ℚ) = mkRat 123456 100 := by
  rw [show (1234.56 : ℚ) = Rat.ofScientific 123456 true 2 from rfl, Rat.ofScientific_true_def]
  decide

/-- The scenario literal 1234567.89 as a normalized rational. -/
theorem ratLit_1234567_89 : (1234567.89 : ℚ) = mkRat 123456789 100 := by
  rw [show (1234567.89 : ℚ) = Rat.ofScientific 123456789 true 2 from rfl,
    Rat.ofScientific_true_def]
  decide

/-- C4: ExtractTransactionDetails (a total function by construction) is
zero-defaulting: when the amount pattern has no match, or its capture
fails to parse, the amount is 0; when the merchant pattern has no match
the merchant is empty. Grouping commas are stripped before parsing, so
12,34,567.89 parses to 1234567.89. Against the body of the section-8
scenario, the Rs amount rule and the at-on merchant rule yield amount
1234.56 and merchant AMAZON. -/
theorem c4_extract_transaction_details :
    (∀ (body : String) (ap mp : Pattern) (t : GoTime),
        findSubmatch ap body.data = none →
        (ExtractTransactionDetails body ap mp t).amount = 0) ∧
    (∀ (body : String) (ap mp : Pattern) (t : GoTime) (g : List Char),
        findSubmatch ap body.data = some g →
        parseFloat (stripCommas ⟨g⟩) = none →
        (ExtractTransactionDetails body ap mp t).amount = 0) ∧
    (∀ (body : String) (ap mp : Pattern) (t : GoTime),
        findSubmatch mp body.data = none →
        (ExtractTransactionDetails body ap mp t).merchantInfo = "") ∧
    parseFloat (stripCommas "12,34,567.89") = some 1234567.89 ∧
    (ExtractTransactionDetails "Spent Rs.1,234.56 at AMAZON on 1 Jan" amountPatternRs
        merchantPatternAtOn ⟨2024, 1, 15, 14, 30, 45⟩).amount = 1234.56 ∧
    (ExtractTransactionDetails "Spent Rs.1,234.56 at AMAZON on 1 Jan" amountPatternRs
        merchantPatternAtOn ⟨2024, 1, 15, 14, 30, 45⟩).merchantInfo = "AMAZON" := by
  refine ⟨?_, ?_, ?_, ?_, ?_, ?_⟩
  · intro body ap mp t h
    unfold ExtractTransactionDetails
    cases hm : findSubmatch mp body.data <;> simp [h, hm]
  · intro body ap mp t g h hp
    unfold ExtractTransactionDetails
    cases hm : findSubmatch mp body.data <;> simp [h, hp, hm]
  · intro body ap mp t h
    unfold ExtractTransactionDetails
    cases ha : findSubmatch ap body.data with
    | none => simp [h, ha]
    | some g => cases hp : parseFloat (stripCommas ⟨g⟩) <;> simp [h, ha, hp]
  · rw [ratLit_1234567_89]; decide
  · rw [ratLit_1234_56]; decide
  · decide

/-- Witness for C4 at a body neither pattern matches. -/
theorem c4_extract_transaction_details_witness :
    (ExtractTransactionDetails "hello world" amountPatternRs merchantPatternAtOn
        ⟨2024, 1, 1, 0, 0, 0⟩).amount = 0 ∧
    (ExtractTransactionDetails "hello world" amountPatternRs merchantPatternAtOn
        ⟨2024, 1, 1, 0, 0, 0⟩).merchantInfo = "" :=
  ⟨c4_extract_transaction_details.1 "hello world" amountPatternRs merchantPatternAtOn
      ⟨2024, 1, 1, 0, 0, 0⟩ (by decide),
   c4_extract_transaction_details.2.2.1 "hello world" amountPatternRs merchantPatternAtOn
      ⟨2024, 1, 1, 0, 0, 0⟩ (by decide)⟩

end Expensor

namespace Expensor

/-- A decimal digit character is not the letter T. -/
theorem digitChar_ne_T (d : Nat) (h : d < 10) : digitChar d ≠ 'T' := by
  interval_cases d <;> decide

/-- No character of a rendered natural number is the letter T. -/
theorem mem_natChars_ne_T {c : Char} {n : Nat} (h : c ∈ natChars n) : c ≠ 'T' := by
  unfold natChars at h
  rw [List.mem_reverse] at h
  obtain ⟨d, hd, rfl⟩ := List.mem_map.mp h
  exact digitChar_ne_T d (Nat.digits_lt_base (by norm_num) hd)

/-- No character of a zero-padded number is the letter T. -/
theorem mem_padNat_ne_T {c : Char} {w n : Nat} (h : c ∈ padNat w n) : c ≠ 'T' := by
  unfold padNat at h
  rcases List.mem_append.mp h with h | h
  · rw [List.eq_of_mem_replicate h]; decide
  · exact mem_natChars_ne_T h

/-- The DateTime layout output never contains the letter T. -/
theorem not_T_mem_dateTimeChars (t : GoTime) : 'T' ∉ dateTimeChars t := by
  intro h
  unfold dateTimeChars at h
  simp only [List.mem_append, List.mem_singleton] at h
  rcases h with (((((((((h | h) | h) | h) | h) | h) | h) | h) | h) | h) | h
  · exact mem_padNat_ne_T h rfl
  · exact absurd h (by decide)
  · exact mem_padNat_ne_T h rfl
  · exact absurd h (by decide)
  · exact mem_padNat_ne_T h rfl
  · exact absurd h (by decide)
  · exact mem_padNat_ne_T h rfl
  · exact absurd h (by decide)
  · exact mem_padNat_ne_T h rfl
  · exact absurd h (by decide)
  · exact mem_padNat_ne_T h rfl

/-- A position of a list that avoids the letter T never reads it. -/
theorem charAt_ne_T {cs : List Char} (h : 'T' ∉ cs) (i : Nat) : charAt cs i ≠ 'T' := by
  unfold charAt
  cases hx : cs[i]? with
  | none => simp [List.getD_eq_getElem?_getD, hx]
  | some c =>
      have hc : c ∈ cs := List.getElem?_mem hx
      simp only [List.getD_eq_getElem?_getD, hx, Option.getD_some]
      intro hEq
      exact h (hEq ▸ hc)

/-- The RFC 3339 layout rejects every DateTime layout output: the
DateTime output has no T separator. -/
theorem rfc3339Parse_formatDateTime (t : GoTime) :
    rfc3339Parse (formatDateTime t) = none := by
  unfold rfc3339Parse
  rw [if_neg]
  exact charAt_ne_T (not_T_mem_dateTimeChars t) 10

end Expensor

namespace Expensor

/-- Label inserts never touch the transactions rows. -/
theorem insertLabels_rows (db : Postgres.DB) (txnID : Nat) (ls : List String) :
    (Postgres.insertLabels db txnID ls).rows = db.rows := by
  induction ls generalizing db with
  | nil => rfl
  | cons l ls ih =>
      unfold Postgres.insertLabels at ih ⊢
      rw [List.foldl_cons]
      rw [ih]
      split <;> rfl

/-- The upsert leaves a row for the record's message identifier carrying
the flush timestamp. -/
theorem upsert_writes_row (now : GoTime) (db : Postgres.DB) (t : TransactionDetails) :
    ∃ r ∈ ((Postgres.upsert now db t).1).rows,
      r.messageId = t.messageID ∧ r.timestamp = Postgres.rowTimestamp now t := by
  rcases hf : db.rows.find? (fun r => r.messageId == t.messageID) with _ | old
  · refine ⟨Postgres.insertRow now db.nextId t, ?_, rfl, rfl⟩
    simp [Postgres.upsert, hf]
  · have hmem : old ∈ db.rows := List.mem_of_find?_eq_some hf
    have hpred : (old.messageId == t.messageID) = true := by
      simpa using List.find?_some hf
    refine ⟨Postgres.updateRow now t old, ?_, ?_, rfl⟩
    · simp only [Postgres.upsert, hf]
      exact List.mem_map.mpr ⟨old, hmem, by rw [if_pos hpred]⟩
    · show old.messageId = t.messageID
      exact eq_of_beq hpred

/-- The no-fault oracle never fails a row scan. -/
theorem noFaults_rowFail (i : Nat) : Postgres.noFaults.rowFail i = false := rfl

/-- The no-fault oracle never fails a label insert. -/
theorem noFaults_labelFail (i : Nat) : Postgres.noFaults.labelFail i = false := rfl

/-- The no-fault oracle never fails the commit. -/
theorem noFaults_commitFail : Postgres.noFaults.commitFail = false := rfl

/-- With no statement faults, writeBatchGo commits the folded effect of
the batch. -/
theorem writeBatchGo_noFaults (now : GoTime) (d : Postgres.DB)
    (k : Nat) (ts : List TransactionDetails) :
    Postgres.writeBatchGo Postgres.noFaults now d k ts =
      .ok (ts.foldl (Postgres.applyTxn now) d) := by
  induction ts generalizing d k with
  | nil => simp [Postgres.writeBatchGo, noFaults_commitFail]
  | cons t ts ih =>
      simp [Postgres.writeBatchGo, noFaults_rowFail, noFaults_labelFail, ih]

/-- With no statement faults, writeBatch commits the folded effect of
the batch. -/
theorem writeBatch_noFaults (now : GoTime) (db : Postgres.DB)
    (batch : List TransactionDetails) :
    Postgres.writeBatch Postgres.noFaults now db batch =
      .ok (Postgres.applyBatch now db batch) := by
  unfold Postgres.writeBatch Postgres.applyBatch
  cases batch with
  | nil => rfl
  | cons t ts => simp [writeBatchGo_noFaults]

/-- C10: every timestamp ExtractTransactionDetails produces (the
DateTime layout) fails the postgres writer's RFC 3339 parse, so the
persisted row carries the wall-clock time of the flush instead of the
receipt time; the record is still written, an unparseable timestamp never
failing the batch. -/
theorem c10_datetime_rfc3339_fallback :
    (∀ t : GoTime, rfc3339Parse (formatDateTime t) = none) ∧
    (∀ (now : GoTime) (txn : TransactionDetails) (t : GoTime),
        txn.timestamp = formatDateTime t → Postgres.rowTimestamp now txn = now) ∧
    (∀ (now : GoTime) (db : Postgres.DB) (txn : TransactionDetails),
        Postgres.writeBatch Postgres.noFaults now db [txn] =
          .ok (Postgres.applyTxn now db txn)) ∧
    (∀ (now : GoTime) (db : Postgres.DB) (txn : TransactionDetails) (t : GoTime),
        txn.timestamp = formatDateTime t →
        (Postgres.applyTxn now db txn).rows.any
          (fun r => r.messageId == txn.messageID && r.timestamp == now) = true) := by
  have hts : ∀ (now : GoTime) (txn : TransactionDetails) (t : GoTime),
      txn.timestamp = formatDateTime t → Postgres.rowTimestamp now txn = now := by
    intro now txn t h
    unfold Postgres.rowTimestamp
    rw [h, rfc3339Parse_formatDateTime]
    rfl
  refine ⟨rfc3339Parse_formatDateTime, hts, ?_, ?_⟩
  · intro now db txn
    rw [writeBatch_noFaults]
    rfl
  · intro now db txn t h
    obtain ⟨r, hr, h1, h2⟩ := upsert_writes_row now db txn
    apply List.any_eq_true.mpr
    refine ⟨r, ?_, ?_⟩
    · unfold Postgres.applyTxn
      rw [insertLabels_rows]
      exact hr
    · rw [Bool.and_eq_true, beq_iff_eq, beq_iff_eq]
      exact ⟨h1, by rw [h2, hts now txn t h]⟩

/-- Witness for C10 at a concrete receipt time and flush time. -/
theorem c10_datetime_rfc3339_fallback_witness :
    Postgres.rowTimestamp ⟨2025, 2, 3, 4, 5, 6⟩
        { sampleRecord with timestamp := formatDateTime ⟨2024, 1, 15, 14, 30, 45⟩ } =
      ⟨2025, 2, 3, 4, 5, 6⟩ ∧
    (Postgres.applyTxn ⟨2025, 2, 3, 4, 5, 6⟩ Postgres.emptyDB
        { sampleRecord with timestamp := formatDateTime ⟨2024, 1, 15, 14, 30, 45⟩ }).rows.any
      (fun r => r.messageId == sampleRecord.messageID && r.timestamp == ⟨2025, 2, 3, 4, 5, 6⟩) =
      true :=
  ⟨c10_datetime_rfc3339_fallback.2.1 ⟨2025, 2, 3, 4, 5, 6⟩
      { sampleRecord with timestamp := formatDateTime ⟨2024, 1, 15, 14, 30, 45⟩ }
      ⟨2024, 1, 15, 14, 30, 45⟩ rfl,
   c10_datetime_rfc3339_fallback.2.2.2 ⟨2025, 2, 3, 4, 5, 6⟩ Postgres.emptyDB
      { sampleRecord with timestamp := formatDateTime ⟨2024, 1, 15, 14, 30, 45⟩ }
      ⟨2024, 1, 15, 14, 30, 45⟩ rfl⟩

end Expensor

namespace Expensor

/-- After any flush attempt the writer's buffer is empty, whether or not
the flusher failed: the buffer is reset before the flusher runs. -/
theorem flush_buffer (oracle : Buffered.Oracle) (tr : Buffered.Trigger)
    (s : Buffered.WriterState) : ((Buffered.flush oracle tr s).1).buffer = [] := by
  unfold Buffered.flush
  split
  · next h => exact List.isEmpty_iff.mp h
  · rfl

/-- Every flusher invocation a flush records has a nonempty batch, and a
count-triggered one has exactly the batch size when the buffer held it. -/
theorem flush_calls_good (oracle : Buffered.Oracle) (tr : Buffered.Trigger)
    (s : Buffered.WriterState) (bs : Nat)
    (hcalls : ∀ c ∈ s.calls, c.batch ≠ [] ∧ (c.trigger = .count → c.batch.length = bs))
    (hcount : tr = .count → s.buffer.length = bs) :
    ∀ c ∈ ((Buffered.flush oracle tr s).1).calls,
      c.batch ≠ [] ∧ (c.trigger = .count → c.batch.length = bs) := by
  unfold Buffered.flush
  split
  · exact hcalls
  · next h =>
      intro c hc
      rcases List.mem_append.mp hc with hc | hc
      · exact hcalls c hc
      · rw [List.mem_singleton] at hc
        subst hc
        refine ⟨?_, ?_⟩
        · simpa using h
        · intro htr
          rw [hcount htr]

/-- One run-loop step preserves the buffer bound and the shape of the
recorded flusher invocations. -/
theorem step_inv (oracle : Buffered.Oracle) (bs : Nat) (hbs : 1 ≤ bs)
    (s : Buffered.WriterState) (e : Event)
    (hbuf : s.buffer.length < bs)
    (hcalls : ∀ c ∈ s.calls, c.batch ≠ [] ∧ (c.trigger = .count → c.batch.length = bs)) :
    ((Buffered.step oracle bs s e).1).buffer.length < bs ∧
      ∀ c ∈ ((Buffered.step oracle bs s e).1).calls,
        c.batch ≠ [] ∧ (c.trigger = .count → c.batch.length = bs) := by
  cases e with
  | cancel =>
      refine ⟨?_, ?_⟩
      · show ((Buffered.flush oracle .cancel s).1).buffer.length < bs
        rw [flush_buffer]; simpa using hbs
      · exact flush_calls_good oracle .cancel s bs hcalls (fun h => nomatch h)
  | timerTick =>
      refine ⟨?_, ?_⟩
      · show ((Buffered.flush oracle .timer s).1).buffer.length < bs
        rw [flush_buffer]; simpa using hbs
      · exact flush_calls_good oracle .timer s bs hcalls (fun h => nomatch h)
  | chanClosed =>
      have hb : ((Buffered.flush oracle .closed s).1).buffer.length < bs := by
        rw [flush_buffer]; simpa using hbs
      have hcg := flush_calls_good oracle .closed s bs hcalls (fun h => nomatch h)
      unfold Buffered.step
      cases hres : (Buffered.flush oracle .closed s).2 <;> simpa [hres] using ⟨hb, hcg⟩
  | recv t =>
      unfold Buffered.step
      by_cases hle : bs ≤ s.buffer.length + 1
      · have hlen : (s.buffer ++ [t]).length = bs := by
          simp only [List.length_append, List.length_singleton]
          omega
        have hb : ((Buffered.flush oracle .count ⟨s.buffer ++ [t], s.calls⟩).1).buffer.length
            < bs := by
          rw [flush_buffer]; simpa using hbs
        have hcg := flush_calls_good oracle .count ⟨s.buffer ++ [t], s.calls⟩ bs hcalls
          (fun _ => hlen)
        simpa [hle, List.length_append] using ⟨hb, hcg⟩
      · have hlt : (s.buffer ++ [t]).length < bs := by
          simp only [List.length_append, List.length_singleton]
          omega
        simpa [hle, List.length_append] using ⟨by simpa using hlt, hcalls⟩

/-- The whole run loop preserves the buffer bound and the shape of the
recorded flusher invocations. -/
theorem run_inv (oracle : Buffered.Oracle) (bs : Nat) (hbs : 1 ≤ bs) :
    ∀ (events : List Event) (s : Buffered.WriterState),
      s.buffer.length < bs →
      (∀ c ∈ s.calls, c.batch ≠ [] ∧ (c.trigger = .count → c.batch.length = bs)) →
      ∀ c ∈ ((Buffered.run oracle bs s events).1).calls,
        c.batch ≠ [] ∧ (c.trigger = .count → c.batch.length = bs) := by
  intro events
  induction events with
  | nil => intro s _ hcalls; exact hcalls
  | cons e es ih =>
      intro s hbuf hcalls
      obtain ⟨hb, hc⟩ := step_inv oracle bs hbs s e hbuf hcalls
      unfold Buffered.run
      rcases hstep : Buffered.step oracle bs s e with ⟨s2, r⟩
      have hb2 : s2.buffer.length < bs := by rw [show s2 = (Buffered.step oracle bs s e).1 by rw [hstep]]; exact hb
      have hc2 : ∀ c ∈ s2.calls, c.batch ≠ [] ∧ (c.trigger = .count → c.batch.length = bs) := by
        rw [show s2 = (Buffered.step oracle bs s e).1 by rw [hstep]]; exact hc
      cases r with
      | none => simpa using ih s2 hb2 hc2
      | some r => simpa using hc2

/-- C7: the generic buffered writer never hands the flusher an empty
batch (empty timer ticks and empty shutdown flushes invoke nothing);
every count-threshold flush carries exactly the batch size, other
triggers at least one record; 25 records with batch size 10 and no timer
fire produce exactly flushes of 10, 10 and 5 records. -/
theorem c7_batch_size_invariant :
    (∀ (oracle : Buffered.Oracle) (bs : Nat) (events : List Event)
        (c : Buffered.FlushCall),
        1 ≤ bs → c ∈ Buffered.runCalls oracle bs events →
        c.batch ≠ [] ∧ (c.trigger = .count → c.batch.length = bs)) ∧
    (Buffered.runCalls (fun _ _ => none) 10 flushScenarioEvents).map
        (fun c => c.batch.length) = [10, 10, 5] ∧
    (Buffered.runCalls (fun _ _ => none) 10 flushScenarioEvents).map
        (fun c => c.trigger) = [.count, .count, .closed] := by
  refine ⟨?_, by decide, by decide⟩
  intro oracle bs events c hbs hc
  exact run_inv oracle bs hbs events Buffered.initState (by simpa [Buffered.initState] using hbs)
    (by simp [Buffered.initState]) c hc

/-- Witness for C7: the first flush of the scenario run. -/
theorem c7_batch_size_invariant_witness :
    (⟨Buffered.Trigger.count, List.replicate 10 sampleRecord, none⟩ : Buffered.FlushCall).batch
        ≠ [] ∧
    ((⟨Buffered.Trigger.count, List.replicate 10 sampleRecord, none⟩ :
        Buffered.FlushCall).trigger = Buffered.Trigger.count →
      (⟨Buffered.Trigger.count, List.replicate 10 sampleRecord, none⟩ :
        Buffered.FlushCall).batch.length = 10) :=
  c7_batch_size_invariant.1 (fun _ _ => none) 10 flushScenarioEvents
    ⟨Buffered.Trigger.count, List.replicate 10 sampleRecord, none⟩ (by decide) (by decide)

end Expensor

namespace Expensor

/-- Counterexample to C2 as stated: at a timer tick with a nonempty
buffer, the flusher is invoked and fails, yet Write returns nothing and
the run loop continues consuming; the failure is only logged. -/
theorem c2_counterexample :
    (Buffered.step alwaysFailFlusher 10 ⟨[sampleRecord], []⟩ Event.timerTick).1.calls =
        [⟨Buffered.Trigger.timer, [sampleRecord], some "flush failed"⟩] ∧
    (Buffered.step alwaysFailFlusher 10 ⟨[sampleRecord], []⟩ Event.timerTick).2 = none := by
  decide

/-- C2 amended: in the generic buffered writer, only the
input-channel-closed wake condition returns a flush error and terminates
the run; cancellation terminates but returns context.Canceled with the
flush failure only logged; timer-tick and batch-size flush failures are
only logged, the loop continuing. In the postgres writer's own loop,
timer-tick, batch-size and channel-closed flush failures do terminate
with the error, while cancellation again swallows it into the context
error. -/
theorem c2_flush_error_propagation :
    (∀ (oracle : Buffered.Oracle) (bs : Nat) (s : Buffered.WriterState) (e : String),
        (Buffered.flush oracle Buffered.Trigger.closed s).2 = some e →
        Buffered.step oracle bs s Event.chanClosed =
          ((Buffered.flush oracle Buffered.Trigger.closed s).1,
            some (some (GoError.flushErr e)))) ∧
    (∀ (oracle : Buffered.Oracle) (bs : Nat) (s : Buffered.WriterState),
        (Buffered.step oracle bs s Event.cancel).2 = some (some GoError.canceled)) ∧
    (∀ (oracle : Buffered.Oracle) (bs : Nat) (s : Buffered.WriterState),
        (Buffered.step oracle bs s Event.timerTick).2 = none) ∧
    (∀ (oracle : Buffered.Oracle) (bs : Nat) (s : Buffered.WriterState)
        (t : TransactionDetails),
        (Buffered.step oracle bs s (Event.recv t)).2 = none) ∧
    (∀ (fo : Postgres.FaultOracle) (clock : Postgres.Clock) (bs : Nat)
        (s : Postgres.LoopState) (e : String),
        (Postgres.loopFlush fo clock s).2 = some e →
        (Postgres.loopStep fo clock bs s Event.timerTick).2 =
            some (some (GoError.flushErr e)) ∧
          (Postgres.loopStep fo clock bs s Event.chanClosed).2 =
            some (some (GoError.flushErr e)) ∧
          (Postgres.loopStep fo clock bs s Event.cancel).2 =
            some (some GoError.canceled)) ∧
    (∀ (fo : Postgres.FaultOracle) (clock : Postgres.Clock) (bs : Nat)
        (s : Postgres.LoopState) (t : TransactionDetails) (e : String),
        bs ≤ (s.batch ++ [t]).length →
        (Postgres.loopFlush fo clock
            ⟨s.batch ++ [t], s.db, s.flushIdx, s.trace⟩).2 = some e →
        (Postgres.loopStep fo clock bs s (Event.recv t)).2 =
          some (some (GoError.flushErr e))) := by
  refine ⟨?_, ?_, ?_, ?_, ?_, ?_⟩
  · intro oracle bs s e h
    simp only [Buffered.step]
    rw [h]
  · intro oracle bs s
    rfl
  · intro oracle bs s
    rfl
  · intro oracle bs s t
    simp only [Buffered.step]
    split <;> rfl
  · intro fo clock bs s e h
    refine ⟨?_, ?_, rfl⟩
    · simp only [Postgres.loopStep]
      rw [h]
    · simp only [Postgres.loopStep]
      rw [h]
      rfl
  · intro fo clock bs s t e hc h
    simp only [Postgres.loopStep, hc, if_true, h]

/-- Witness for the amended C2 at a concrete failing flush. -/
theorem c2_flush_error_propagation_witness :
    Buffered.step alwaysFailFlusher 10 ⟨[sampleRecord], []⟩ Event.chanClosed =
      ((Buffered.flush alwaysFailFlusher Buffered.Trigger.closed ⟨[sampleRecord], []⟩).1,
        some (some (GoError.flushErr "flush failed"))) :=
  c2_flush_error_propagation.1 alwaysFailFlusher 10 ⟨[sampleRecord], []⟩ "flush failed"
    (by decide)

/-- Counterexample to C3 as stated: the first flush attempt fails on a
batch holding one record, and the next flush attempt's batch does not
contain that record; the failed batch was dropped, not requeued. -/
theorem c3_counterexample :
    (Buffered.runCalls failFirstFlusher 10
        [Event.recv sampleRecord, Event.timerTick, Event.recv sampleRecord2,
          Event.chanClosed]).map (fun c => (c.batch, c.result)) =
      [([sampleRecord], some "flush failed"), ([sampleRecord2], none)] := by
  decide

/-- C3 amended: the generic buffered writer resets its buffer before
invoking the flusher, so after a failed flush the attempted records are
gone from the buffer (the batch is lost for the run); only the postgres
writer's flush loop keeps the attempted batch on failure, so that the
next attempt there retries every record of it. -/
theorem c3_failed_flush_requeue :
    (∀ (oracle : Buffered.Oracle) (tr : Buffered.Trigger) (s : Buffered.WriterState),
        ((Buffered.flush oracle tr s).1).buffer = []) ∧
    (∀ (fo : Postgres.FaultOracle) (clock : Postgres.Clock) (s : Postgres.LoopState)
        (e : String),
        (Postgres.loopFlush fo clock s).2 = some e →
        ((Postgres.loopFlush fo clock s).1).batch = s.batch) := by
  refine ⟨flush_buffer, ?_⟩
  intro fo clock s e h
  by_cases hb : s.batch.isEmpty
  · exfalso
    unfold Postgres.loopFlush at h
    rw [if_pos hb] at h
    simp at h
  · unfold Postgres.loopFlush
    rw [if_neg hb]
    cases hw : Postgres.writeBatch (fo s.flushIdx) (clock s.flushIdx) s.db s.batch with
    | error e2 => rfl
    | ok db2 =>
        exfalso
        unfold Postgres.loopFlush at h
        rw [if_neg hb, hw] at h
        simp at h

/-- Witness for the amended C3 at a concrete failing postgres flush. -/
theorem c3_failed_flush_requeue_witness :
    ((Postgres.loopFlush rowAlwaysFails fixedClock
        ⟨[sampleRecord], Postgres.emptyDB, 0, []⟩).1).batch = [sampleRecord] :=
  c3_failed_flush_requeue.2 rowAlwaysFails fixedClock
    ⟨[sampleRecord], Postgres.emptyDB, 0, []⟩ "inserting transaction 0" (by decide)

/-- C9: the generic buffered run that the sheets writer delegates to has
no acknowledgment pathway: its action trace never contains an
acknowledgment, so the cmd/expensor pipeline marks no message consumed,
however many records its flushes persist. -/
theorem c9_sheets_pipeline_never_acknowledges :
    ∀ (oracle : Buffered.Oracle) (bs : Nat) (events : List Event),
      acksOf (bufferedActions (Buffered.runCalls oracle bs events)) = [] ∧
      runExpensorMarkedConsumed oracle bs events = [] := by
  have hacks : ∀ calls : List Buffered.FlushCall, acksOf (bufferedActions calls) = [] := by
    intro calls
    induction calls with
    | nil => rfl
    | cons c cs ih =>
        unfold bufferedActions at ih ⊢
        rw [List.map_cons]
        unfold acksOf at ih ⊢
        rw [List.filterMap_cons]
        cases c.result <;> simpa using ih
  intro oracle bs events
  refine ⟨hacks _, ?_⟩
  unfold runExpensorMarkedConsumed
  rw [hacks]
  rfl

end Expensor

namespace Expensor

/-- The retry wrapper makes at most as many calls as its attempt
budget. -/
theorem retryDo_calls_le (oracle : Sheets.AppendOracle) :
    ∀ (n i : Nat), (Sheets.retryDo oracle n i).calls ≤ n
  | 0, _ => by simp [Sheets.retryDo]
  | 1, i => by cases h : oracle i <;> simp [Sheets.retryDo, h]
  | n + 2, i => by
      cases h : oracle i with
      | none => simp [Sheets.retryDo, h]
      | some e =>
          by_cases hr : Sheets.isRateLimited e
          · have := retryDo_calls_le oracle (n + 1) (i + 1)
            simp only [Sheets.retryDo, h, hr, if_true]
            omega
          · simp [Sheets.retryDo, h, hr]

/-- The retry wrapper persists the batch at most once: it stops at the
first successful call. -/
theorem retryDo_successes_le (oracle : Sheets.AppendOracle) :
    ∀ (n i : Nat), (Sheets.retryDo oracle n i).successes ≤ 1
  | 0, _ => by simp [Sheets.retryDo]
  | 1, i => by cases h : oracle i <;> simp [Sheets.retryDo, h]
  | n + 2, i => by
      cases h : oracle i with
      | none => simp [Sheets.retryDo, h]
      | some e =>
          by_cases hr : Sheets.isRateLimited e
          · have := retryDo_successes_le oracle (n + 1) (i + 1)
            simpa [Sheets.retryDo, h, hr] using this
          · simp [Sheets.retryDo, h, hr]

/-- Every call of the retry wrapper except possibly the last one was
answered with an error the retry predicate accepts. -/
theorem retryDo_retries_only_rate_limited (oracle : Sheets.AppendOracle) :
    ∀ (n i k : Nat), k + 1 < (Sheets.retryDo oracle n i).calls →
      Option.any Sheets.isRateLimited (oracle (i + k)) = true
  | 0, i, k => by simp [Sheets.retryDo]
  | 1, i, k => by
      intro hk
      exfalso
      have := retryDo_calls_le oracle 1 i
      omega
  | n + 2, i, k => by
      intro hk
      cases h : oracle i with
      | none => simp [Sheets.retryDo, h] at hk
      | some e =>
          by_cases hr : Sheets.isRateLimited e
          · cases k with
            | zero => simpa [h] using hr
            | succ k2 =>
                have hrec : k2 + 1 < (Sheets.retryDo oracle (n + 1) (i + 1)).calls := by
                  simp only [Sheets.retryDo, h, hr, if_true] at hk
                  omega
                have := retryDo_retries_only_rate_limited oracle (n + 1) (i + 1) k2 hrec
                simpa [Nat.add_assoc, Nat.add_comm, Nat.add_left_comm] using this
          · simp [Sheets.retryDo, h, hr] at hk

/-- A non-retryable first error surfaces immediately: one call, no
delay, nothing persisted. -/
theorem retryDo_nonretryable_immediate (oracle : Sheets.AppendOracle)
    (e : Sheets.AppendErr) (h : oracle 0 = some e)
    (hr : Sheets.isRateLimited e = false) :
    Sheets.retryDo oracle 3 0 = ⟨some e, 1, 0, []⟩ := by
  simp [Sheets.retryDo, h, hr]

/-- Counterexample to C8 as stated: with two rate-limit failures before
the success, the wrapper's inter-attempt delays are 60 seconds and then
120 seconds — the library's default exponential backoff on the
configured 60-second base, not a fixed 60-second delay. -/
theorem c8_counterexample :
    (Sheets.retryDo rateLimitedTwice 3 0).delays = [60, 120] ∧
      (Sheets.retryDo rateLimitedTwice 3 0).delays ≠ [60, 60] := by
  decide

/-- C8 amended: the sheets flush retries the append only on a Google API
429 error, makes at most 3 attempts, persists the batch at most once,
and surfaces any other error class immediately after a single call with
no delay; the retry waits follow the library's default exponential
backoff on the configured 60-second base delay, so a run waits nothing,
60 seconds, or 60 then 120 seconds; two rate-limit failures followed by
a success persist the batch exactly once and return no error. -/
theorem c8_sheets_retry_policy :
    (∀ oracle : Sheets.AppendOracle, (Sheets.retryDo oracle 3 0).calls ≤ 3) ∧
    (∀ oracle : Sheets.AppendOracle, (Sheets.retryDo oracle 3 0).successes ≤ 1) ∧
    (∀ (oracle : Sheets.AppendOracle) (k : Nat),
        k + 1 < (Sheets.retryDo oracle 3 0).calls →
        Option.any Sheets.isRateLimited (oracle k) = true) ∧
    (∀ oracle : Sheets.AppendOracle,
        (Sheets.retryDo oracle 3 0).delays = [] ∨
          (Sheets.retryDo oracle 3 0).delays = [60] ∨
          (Sheets.retryDo oracle 3 0).delays = [60, 120]) ∧
    (∀ (oracle : Sheets.AppendOracle) (e : Sheets.AppendErr)
        (batch : List TransactionDetails),
        batch ≠ [] → oracle 0 = some e → Sheets.isRateLimited e = false →
        Sheets.flushBatch oracle batch = (some e, 0) ∧
          (Sheets.retryDo oracle 3 0).calls = 1 ∧
          (Sheets.retryDo oracle 3 0).delays = []) ∧
    (Sheets.flushBatch rateLimitedTwice [sampleRecord] = (none, 1) ∧
      (Sheets.retryDo rateLimitedTwice 3 0).calls = 3 ∧
      (Sheets.retryDo rateLimitedTwice 3 0).delays = [60, 120]) := by
  refine ⟨fun oracle => retryDo_calls_le oracle 3 0,
    fun oracle => retryDo_successes_le oracle 3 0,
    ?_, ?_, ?_, by decide⟩
  · intro oracle k hk
    simpa using retryDo_retries_only_rate_limited oracle 3 0 k hk
  · intro oracle
    cases h0 : oracle 0 with
    | none => simp [Sheets.retryDo, h0]
    | some e =>
        by_cases hr : Sheets.isRateLimited e
        · cases h1 : oracle 1 with
          | none => simp [Sheets.retryDo, h0, h1, hr]
          | some e1 =>
              by_cases hr1 : Sheets.isRateLimited e1 <;>
                cases h2 : oracle 2 <;>
                  simp [Sheets.retryDo, h0, h1, h2, hr, hr1]
        · simp [Sheets.retryDo, h0, hr]
  · intro oracle e batch hb h hr
    have hdo := retryDo_nonretryable_immediate oracle e h hr
    refine ⟨?_, by rw [hdo], by rw [hdo]⟩
    unfold Sheets.flushBatch
    rw [if_neg (by simpa using hb), hdo]

/-- Witness for C8 at a concrete non-retryable failure. -/
theorem c8_sheets_retry_policy_witness :
    Sheets.flushBatch (fun _ => some (.other "boom")) [sampleRecord] =
        (some (.other "boom"), 0) ∧
      (Sheets.retryDo (fun _ => some (.other "boom")) 3 0).calls = 1 ∧
      (Sheets.retryDo (fun _ => some (.other "boom")) 3 0).delays = [] :=
  c8_sheets_retry_policy.2.2.2.2.1 (fun _ => some (.other "boom")) (.other "boom")
    [sampleRecord] (by decide) rfl rfl

end Expensor

namespace Expensor

namespace Postgres

/-- The conflict update keeps the row's message identifier. -/
theorem updateRow_messageId (now : GoTime) (t : TransactionDetails) (r : Row) :
    (updateRow now t r).messageId = r.messageId := rfl

/-- The conflict update writes exactly the record's mutable column
values. -/
theorem updateRow_mutables (now : GoTime) (t : TransactionDetails) (r : Row) :
    (updateRow now t r).mutables = mutableOf now t := rfl

/-- The insert writes exactly the record's mutable column values. -/
theorem insertRow_mutables (now : GoTime) (id : Nat) (t : TransactionDetails) :
    (insertRow now id t).mutables = mutableOf now t := rfl

/-- Label inserts leave the rows for any message identifier unchanged. -/
theorem rowsFor_insertLabels (db : DB) (txnID : Nat) (ls : List String) (m : String) :
    rowsFor (insertLabels db txnID ls) m = rowsFor db m := by
  unfold rowsFor
  rw [Expensor.insertLabels_rows]

/-- Filtering for the upserted identifier after the conflict update maps
the previous matching rows through the update. -/
theorem filter_map_update_self (l : List Row) (now : GoTime) (t : TransactionDetails) :
    (l.map (fun r => if r.messageId == t.messageID then updateRow now t r else r)).filter
        (fun r => r.messageId == t.messageID)
      = (l.filter (fun r => r.messageId == t.messageID)).map
          (fun r => updateRow now t r) := by
  induction l with
  | nil => rfl
  | cons r l ih =>
      simp only [beq_iff_eq] at ih ⊢
      by_cases hr : r.messageId = t.messageID
      · simp [List.filter_cons, hr, updateRow_messageId, ih]
      · simp [List.filter_cons, hr, ih]

/-- Filtering for a different identifier is unchanged by the conflict
update. -/
theorem filter_map_update_other (l : List Row) (now : GoTime) (t : TransactionDetails)
    (m : String) (hne : t.messageID ≠ m) :
    (l.map (fun r => if r.messageId == t.messageID then updateRow now t r else r)).filter
        (fun r => r.messageId == m)
      = l.filter (fun r => r.messageId == m) := by
  induction l with
  | nil => rfl
  | cons r l ih =>
      simp only [beq_iff_eq] at ih ⊢
      by_cases hr : r.messageId = m
      · have hrt : ¬r.messageId = t.messageID := by
          rw [hr]
          exact fun hh => hne hh.symm
        simp [List.filter_cons, hr, hrt, Ne.symm hne, ih]
      · by_cases hrt : r.messageId = t.messageID
        · simp [List.filter_cons, hr, hrt, updateRow_messageId, hne, ih]
        · simp [List.filter_cons, hr, hrt, ih]

/-- After an upsert there is exactly one row for the record's message
identifier, carrying its mutable values and a refreshed updated_at. -/
theorem rowsFor_upsert_self (now : GoTime) (db : DB) (t : TransactionDetails)
    (h : UniqueMessageIds db) :
    ∃ r, rowsFor ((upsert now db t).1) t.messageID = [r] ∧
      r.mutables = mutableOf now t ∧ r.updatedAt = now := by
  rcases hf : db.rows.find? (fun r => r.messageId == t.messageID) with _ | old
  · refine ⟨insertRow now db.nextId t, ?_, rfl, rfl⟩
    have hempty : db.rows.filter (fun r => r.messageId == t.messageID) = [] := by
      apply List.filter_eq_nil_iff.mpr
      intro r hr
      simpa using List.find?_eq_none.mp hf r hr
    unfold upsert rowsFor
    rw [hf]
    rw [List.filter_append, hempty, List.nil_append]
    rw [List.filter_cons]
    rw [if_pos (show ((insertRow now db.nextId t).messageId == t.messageID) = true by
      simp [insertRow])]
    rfl
  · have hmem : old ∈ db.rows := List.mem_of_find?_eq_some hf
    have hpred : (old.messageId == t.messageID) = true := by
      simpa using List.find?_some hf
    have hone : (db.rows.filter (fun r => r.messageId == t.messageID)).length = 1 := by
      have hle := h t.messageID
      have hmemf : old ∈ db.rows.filter (fun r => r.messageId == t.messageID) :=
        List.mem_filter.mpr ⟨hmem, hpred⟩
      have : 0 < (db.rows.filter (fun r => r.messageId == t.messageID)).length :=
        List.length_pos.mpr (List.ne_nil_of_mem hmemf)
      unfold rowsFor at hle
      omega
  
    obtain ⟨r0, hr0⟩ := List.length_eq_one.mp hone
    refine ⟨updateRow now t r0, ?_, rfl, rfl⟩
    unfold upsert rowsFor
    rw [hf]
    rw [filter_map_update_self, hr0]
    rfl

/-- An upsert does not touch the rows for any other message
identifier. -/
theorem rowsFor_upsert_other (now : GoTime) (db : DB) (t : TransactionDetails)
    (m : String) (hne : t.messageID ≠ m) :
    rowsFor ((upsert now db t).1) m = rowsFor db m := by
  rcases hf : db.rows.find? (fun r => r.messageId == t.messageID) with _ | old
  · unfold upsert rowsFor
    rw [hf]
    rw [List.filter_append, List.filter_cons]
    rw [if_neg (by simp [insertRow, hne])]
    simp
  · unfold upsert rowsFor
    rw [hf]
    exact filter_map_update_other db.rows now t m hne

/-- The upsert preserves the unique constraint on message_id. -/
theorem upsert_unique (now : GoTime) (db : DB) (t : TransactionDetails)
    (h : UniqueMessageIds db) : UniqueMessageIds ((upsert now db t).1) := by
  intro m
  by_cases hm : t.messageID = m
  · subst hm
    obtain ⟨r, hr, _, _⟩ := rowsFor_upsert_self now db t h
    rw [hr]
    simp
  · rw [rowsFor_upsert_other now db t m hm]
    exact h m

/-- The full per-record effect keeps exactly one row for the record's
identifier, with its mutable values and a refreshed updated_at. -/
theorem rowsFor_applyTxn_self (now : GoTime) (db : DB) (t : TransactionDetails)
    (h : UniqueMessageIds db) :
    ∃ r, rowsFor (applyTxn now db t) t.messageID = [r] ∧
      r.mutables = mutableOf now t ∧ r.updatedAt = now := by
  obtain ⟨r, hr, hm, hu⟩ := rowsFor_upsert_self now db t h
  exact ⟨r, by unfold applyTxn; rw [rowsFor_insertLabels]; exact hr, hm, hu⟩

/-- The full per-record effect does not touch rows of other
identifiers. -/
theorem rowsFor_applyTxn_other (now : GoTime) (db : DB) (t : TransactionDetails)
    (m : String) (hne : t.messageID ≠ m) :
    rowsFor (applyTxn now db t) m = rowsFor db m := by
  unfold applyTxn
  rw [rowsFor_insertLabels]
  exact rowsFor_upsert_other now db t m hne

/-- The full per-record effect preserves the unique constraint. -/
theorem applyTxn_unique (now : GoTime) (db : DB) (t : TransactionDetails)
    (h : UniqueMessageIds db) : UniqueMessageIds (applyTxn now db t) := by
  intro m
  unfold applyTxn
  rw [show rowsFor (insertLabels (upsert now db t).1 (upsert now db t).2 t.labels) m
      = rowsFor ((upsert now db t).1) m from rowsFor_insertLabels _ _ _ _]
  exact upsert_unique now db t h m

/-- A batch containing no record of an identifier leaves its rows
unchanged. -/
theorem rowsFor_applyBatch_nomem (now : GoTime) :
    ∀ (ts : List TransactionDetails) (db : DB) (m : String),
      (∀ t ∈ ts, t.messageID ≠ m) →
      rowsFor (applyBatch now db ts) m = rowsFor db m := by
  intro ts
  induction ts with
  | nil => intro db m _; rfl
  | cons t ts ih =>
      intro db m hno
      unfold applyBatch at ih ⊢
      rw [List.foldl_cons]
      rw [ih (applyTxn now db t) m (fun u hu => hno u (List.mem_cons_of_mem t hu))]
      exact rowsFor_applyTxn_other now db t m (hno t (List.mem_cons_self t ts))

/-- The committed batch preserves the unique constraint. -/
theorem applyBatch_unique (now : GoTime) :
    ∀ (ts : List TransactionDetails) (db : DB),
      UniqueMessageIds db → UniqueMessageIds (applyBatch now db ts) := by
  intro ts
  induction ts with
  | nil => intro db h; exact h
  | cons t ts ih =>
      intro db h
      unfold applyBatch at ih ⊢
      rw [List.foldl_cons]
      exact ih (applyTxn now db t) (applyTxn_unique now db t h)

/-- After a committed batch, the rows for an identifier are exactly one
row whose mutable columns come from the last record of the batch with
that identifier, updated_at refreshed to the flush time. -/
theorem rowsFor_applyBatch_last (now : GoTime) :
    ∀ (batch : List TransactionDetails) (db : DB) (m : String) (tl : TransactionDetails),
      UniqueMessageIds db →
      (batch.filter (fun t => t.messageID == m)).getLast? = some tl →
      ∃ r, rowsFor (applyBatch now db batch) m = [r] ∧
        r.mutables = mutableOf now tl ∧ r.updatedAt = now := by
  intro batch
  induction batch with
  | nil => intro db m tl _ hl; simp at hl
  | cons t ts ih =>
      intro db m tl h hl
      have hstep : applyBatch now db (t :: ts) = applyBatch now (applyTxn now db t) ts := by
        unfold applyBatch
        rw [List.foldl_cons]
      have h1 : UniqueMessageIds (applyTxn now db t) := applyTxn_unique now db t h
      rcases hts : ts.filter (fun t => t.messageID == m) with _ | ⟨x, xs⟩
      · have hnom : ∀ u ∈ ts, u.messageID ≠ m := by
          intro u hu
          simpa using List.filter_eq_nil_iff.mp hts u hu
        by_cases hm : (t.messageID == m) = true
        · have htl : tl = t := by
            rw [List.filter_cons, if_pos hm, hts] at hl
            simpa using hl.symm
          subst htl
          have hmm : tl.messageID = m := by simpa using hm
          rw [hstep, rowsFor_applyBatch_nomem now ts (applyTxn now db tl) m hnom, ← hmm]
          exact rowsFor_applyTxn_self now db tl h
        · rw [List.filter_cons, if_neg hm, hts] at hl
          simp at hl
      · have hl2 : (ts.filter (fun t => t.messageID == m)).getLast? = some tl := by
          by_cases hm : (t.messageID == m) = true
          · rw [List.filter_cons, if_pos hm, hts, List.getLast?_cons_cons, ← hts] at hl
            exact hl
          · rw [List.filter_cons, if_neg hm] at hl
            exact hl
        rw [hstep]
        exact ih (applyTxn now db t) m tl h1 hl2

end Postgres

end Expensor

namespace Expensor

/-- A committed writeBatchGo run equals the folded effect of the batch:
the commit happens only after every statement succeeded. -/
theorem writeBatchGo_ok_eq (f : Postgres.Faults) (now : GoTime) :
    ∀ (ts : List TransactionDetails) (d : Postgres.DB) (k : Nat) (db2 : Postgres.DB),
      Postgres.writeBatchGo f now d k ts = .ok db2 →
      db2 = ts.foldl (Postgres.applyTxn now) d := by
  intro ts
  induction ts with
  | nil =>
      intro d k db2 h
      unfold Postgres.writeBatchGo at h
      split at h
      · exact absurd h (by simp)
      · simpa using h.symm
  | cons t ts ih =>
      intro d k db2 h
      unfold Postgres.writeBatchGo at h
      split at h
      · exact absurd h (by simp)
      · split at h
        · exact absurd h (by simp)
        · rw [List.foldl_cons]
          exact ih (Postgres.applyTxn now d t) (k + 1) db2 h

/-- A failing statement anywhere in the batch makes writeBatchGo return
an error. -/
theorem writeBatchGo_error (f : Postgres.Faults) (now : GoTime) :
    ∀ (ts : List TransactionDetails) (d : Postgres.DB) (k i : Nat) (t : TransactionDetails),
      ts[i]? = some t →
      (f.rowFail (k + i) = true ∨ (t.labels ≠ [] ∧ f.labelFail (k + i) = true)) →
      ∃ e, Postgres.writeBatchGo f now d k ts = .error e := by
  intro ts
  induction ts with
  | nil => intro d k i t hit; simp at hit
  | cons t0 ts ih =>
      intro d k i t hit hfail
      by_cases hrow : f.rowFail k = true
      · refine ⟨"inserting transaction " ++ toString k, ?_⟩
        unfold Postgres.writeBatchGo
        rw [if_pos hrow]
      · by_cases hlab : ¬t0.labels.isEmpty ∧ f.labelFail k = true
        · refine ⟨"inserting labels for transaction " ++ toString k, ?_⟩
          unfold Postgres.writeBatchGo
          rw [if_neg (by simpa using hrow), if_pos hlab]
        · cases i with
          | zero =>
              have ht : t0 = t := by simpa using hit
              subst ht
              exfalso
              rcases hfail with hf | ⟨hl, hf⟩
              · rw [Nat.add_zero] at hf
                exact hrow hf
              · exact hlab ⟨by simpa using hl, by rw [Nat.add_zero] at hf; exact hf⟩
          | succ i2 =>
              have hit2 : ts[i2]? = some t := by simpa using hit
              have hfail2 : f.rowFail (k + 1 + i2) = true ∨
                  (t.labels ≠ [] ∧ f.labelFail (k + 1 + i2) = true) := by
                rw [show k + 1 + i2 = k + (i2 + 1) by omega]
                exact hfail
              obtain ⟨e, he⟩ := ih (Postgres.applyTxn now d t0) (k + 1) i2 t hit2 hfail2
              refine ⟨e, ?_⟩
              unfold Postgres.writeBatchGo
              rw [if_neg (by simpa using hrow), if_neg hlab]
              exact he

/-- C6: the relational flush is all-or-nothing. An error anywhere makes
the flush attempt leave the database untouched and report the one error
for the whole batch; a failure of any single row scan or label insert
produces such an error; and a successful writeBatch is exactly the
commit of every row upsert and label insert of the batch. -/
theorem c6_relational_flush_atomic :
    (∀ (f : Postgres.Faults) (now : GoTime) (db : Postgres.DB)
        (batch : List TransactionDetails) (e : String),
        Postgres.writeBatch f now db batch = .error e →
        Postgres.flushAttempt f now db batch = (db, some e)) ∧
    (∀ (f : Postgres.Faults) (now : GoTime) (db : Postgres.DB)
        (batch : List TransactionDetails) (i : Nat) (t : TransactionDetails),
        batch[i]? = some t →
        (f.rowFail i = true ∨ (t.labels ≠ [] ∧ f.labelFail i = true)) →
        ∃ e, Postgres.writeBatch f now db batch = .error e) ∧
    (∀ (f : Postgres.Faults) (now : GoTime) (db : Postgres.DB)
        (batch : List TransactionDetails) (db2 : Postgres.DB),
        Postgres.writeBatch f now db batch = .ok db2 →
        db2 = Postgres.applyBatch now db batch) := by
  refine ⟨?_, ?_, ?_⟩
  · intro f now db batch e h
    unfold Postgres.flushAttempt
    rw [h]
  · intro f now db batch i t hit hfail
    have hne : ¬batch.isEmpty := by
      cases batch with
      | nil => simp at hit
      | cons a l => simp
    obtain ⟨e, he⟩ := writeBatchGo_error f now batch db 0 i t hit
      (by simpa using hfail)
    refine ⟨e, ?_⟩
    unfold Postgres.writeBatch
    rw [if_neg hne]
    exact he
  · intro f now db batch db2 h
    unfold Postgres.writeBatch at h
    split at h
    · next hb =>
        have : batch = [] := by simpa using hb
        subst this
        simpa [Postgres.applyBatch] using h.symm
    · exact writeBatchGo_ok_eq f now batch db 0 db2 h

/-- Witness for C6 at a concrete failing row scan. -/
theorem c6_relational_flush_atomic_witness :
    Postgres.flushAttempt (rowAlwaysFails 0) ⟨2025, 1, 1, 0, 0, 0⟩ Postgres.emptyDB
        [sampleRecord] = (Postgres.emptyDB, some "inserting transaction 0") :=
  c6_relational_flush_atomic.1 (rowAlwaysFails 0) ⟨2025, 1, 1, 0, 0, 0⟩ Postgres.emptyDB
    [sampleRecord] "inserting transaction 0" rfl

end Expensor

namespace Expensor

/-- C5: flushing the relational sink twice with batches containing a
record with the same sourceMessageID leaves exactly one persisted row
for that message_id, whose mutable columns (amount, currency, original
amount and currency, exchange rate, timestamp, merchant, category,
bucket, source, description) equal the values of the later flush with
updated_at refreshed to the later flush time; and re-inserting an
already present (transaction_id, label) pair is a no-op, not an
error. -/
theorem c5_relational_idempotence :
    (∀ (db db1 db2 : Postgres.DB) (b1 b2 : List TransactionDetails)
        (now1 now2 : GoTime) (m : String) (r2 : TransactionDetails),
        Postgres.UniqueMessageIds db →
        Postgres.writeBatch Postgres.noFaults now1 db b1 = .ok db1 →
        Postgres.writeBatch Postgres.noFaults now2 db1 b2 = .ok db2 →
        b1.filter (fun t => t.messageID == m) ≠ [] →
        (b2.filter (fun t => t.messageID == m)).getLast? = some r2 →
        (Postgres.rowsFor db2 m).length = 1 ∧
          (Postgres.rowsFor db2 m).map Postgres.Row.mutables =
            [Postgres.mutableOf now2 r2] ∧
          (Postgres.rowsFor db2 m).map Postgres.Row.updatedAt = [now2]) ∧
    (∀ (db : Postgres.DB) (txnID : Nat) (l : String),
        (txnID, l) ∈ db.labels → Postgres.insertLabels db txnID [l] = db) := by
  refine ⟨?_, ?_⟩
  · intro db db1 db2 b1 b2 now1 now2 m r2 hu h1 h2 hb1 hl
    have e1 : db1 = Postgres.applyBatch now1 db b1 := by
      rw [writeBatch_noFaults] at h1
      simpa using h1.symm
    subst e1
    have e2 : db2 = Postgres.applyBatch now2 (Postgres.applyBatch now1 db b1) b2 := by
      rw [writeBatch_noFaults] at h2
      simpa using h2.symm
    subst e2
    have hu1 := Postgres.applyBatch_unique now1 b1 db hu
    obtain ⟨r, hr, hm, hupd⟩ :=
      Postgres.rowsFor_applyBatch_last now2 b2 (Postgres.applyBatch now1 db b1) m r2 hu1 hl
    rw [hr]
    exact ⟨rfl, by rw [List.map_cons, List.map_nil, hm],
      by rw [List.map_cons, List.map_nil, hupd]⟩
  · intro db txnID l h
    unfold Postgres.insertLabels
    simp [h]

/-- Witness for C5: the same message identifier upserted by two
successive single-record flushes. -/
theorem c5_relational_idempotence_witness :
    (Postgres.rowsFor (Postgres.applyBatch ⟨2025, 1, 2, 0, 0, 0⟩
          (Postgres.applyBatch ⟨2025, 1, 1, 0, 0, 0⟩ Postgres.emptyDB
            [{ messageID := "msg-1", amount := 5 }])
          [{ messageID := "msg-1", amount := 7, merchantInfo := "B" }]) "msg-1").length = 1 ∧
      (Postgres.rowsFor (Postgres.applyBatch ⟨2025, 1, 2, 0, 0, 0⟩
          (Postgres.applyBatch ⟨2025, 1, 1, 0, 0, 0⟩ Postgres.emptyDB
            [{ messageID := "msg-1", amount := 5 }])
          [{ messageID := "msg-1", amount := 7, merchantInfo := "B" }]) "msg-1").map
        Postgres.Row.mutables =
        [Postgres.mutableOf ⟨2025, 1, 2, 0, 0, 0⟩
          { messageID := "msg-1", amount := 7, merchantInfo := "B" }] ∧
      (Postgres.rowsFor (Postgres.applyBatch ⟨2025, 1, 2, 0, 0, 0⟩
          (Postgres.applyBatch ⟨2025, 1, 1, 0, 0, 0⟩ Postgres.emptyDB
            [{ messageID := "msg-1", amount := 5 }])
          [{ messageID := "msg-1", amount := 7, merchantInfo := "B" }]) "msg-1").map
        Postgres.Row.updatedAt = [⟨2025, 1, 2, 0, 0, 0⟩] :=
  c5_relational_idempotence.1 Postgres.emptyDB
    (Postgres.applyBatch ⟨2025, 1, 1, 0, 0, 0⟩ Postgres.emptyDB
      [{ messageID := "msg-1", amount := 5 }])
    (Postgres.applyBatch ⟨2025, 1, 2, 0, 0, 0⟩
      (Postgres.applyBatch ⟨2025, 1, 1, 0, 0, 0⟩ Postgres.emptyDB
        [{ messageID := "msg-1", amount := 5 }])
      [{ messageID := "msg-1", amount := 7, merchantInfo := "B" }])
    [{ messageID := "msg-1", amount := 5 }]
    [{ messageID := "msg-1", amount := 7, merchantInfo := "B" }]
    ⟨2025, 1, 1, 0, 0, 0⟩ ⟨2025, 1, 2, 0, 0, 0⟩ "msg-1"
    { messageID := "msg-1", amount := 7, merchantInfo := "B" }
    (fun m => by simp [Postgres.rowsFor, Postgres.emptyDB])
    (writeBatch_noFaults ⟨2025, 1, 1, 0, 0, 0⟩ Postgres.emptyDB
      [{ messageID := "msg-1", amount := 5 }])
    (writeBatch_noFaults ⟨2025, 1, 2, 0, 0, 0⟩
      (Postgres.applyBatch ⟨2025, 1, 1, 0, 0, 0⟩ Postgres.emptyDB
        [{ messageID := "msg-1", amount := 5 }])
      [{ messageID := "msg-1", amount := 7, merchantInfo := "B" }])
    (by decide) (by decide)

end Expensor

namespace Expensor

/-- An index answering some element is within bounds. -/
theorem getElem?_some_lt {α : Type} {l : List α} {n : Nat} {a : α}
    (h : l[n]? = some a) : n < l.length := by
  by_contra hc
  rw [List.getElem?_eq_none (by omega)] at h
  simp at h

/-- A member of a list is answered at some index. -/
theorem exists_getElem?_of_mem {α : Type} {l : List α} {a : α} (h : a ∈ l) :
    ∃ i : Nat, l[i]? = some a := by
  obtain ⟨i, hi⟩ := List.get_of_mem h
  exact ⟨i.1, by rw [List.getElem?_eq_getElem i.2]; simp [← hi, List.get_eq_getElem]⟩

/-- A justified acknowledgment stays justified when the trace grows. -/
theorem ackPreceded_mono (tr ch : List Postgres.Action) (i : Nat) (msgId : String)
    (h : ackPreceded tr i msgId = true) :
    ackPreceded (tr ++ ch) i msgId = true := by
  unfold ackPreceded at h ⊢
  rw [List.any_eq_true] at h ⊢
  obtain ⟨j, hjr, hj⟩ := h
  refine ⟨j, hjr, ?_⟩
  cases hx : tr[j]? with
  | none => rw [hx] at hj; simp at hj
  | some a =>
      rw [hx] at hj
      rw [List.getElem?_append_left (getElem?_some_lt hx), hx]
      exact hj

/-- Appending a failed-flush action preserves justification of every
acknowledgment: the failed flush pushes none. -/
theorem ackSafe_append_flushFail (tr : List Postgres.Action)
    (b : List TransactionDetails) (e : String)
    (h : ∀ i msgId, tr[i]? = some (.ack msgId) → ackPreceded tr i msgId = true) :
    ∀ i msgId, (tr ++ [Postgres.Action.flushFail b e])[i]? = some (.ack msgId) →
      ackPreceded (tr ++ [Postgres.Action.flushFail b e]) i msgId = true := by
  intro i msgId hi
  by_cases hlt : i < tr.length
  · rw [List.getElem?_append_left hlt] at hi
    exact ackPreceded_mono _ _ _ _ (h i msgId hi)
  · exfalso
    rw [List.getElem?_append_right (le_of_not_lt hlt)] at hi
    rcases hk : i - tr.length with _ | k <;> rw [hk] at hi <;> simp at hi

/-- Appending a successful flush followed by its acknowledgments
preserves justification: each new acknowledgment is of a record of the
flushed batch and sits after the success action. -/
theorem ackSafe_append_flushOk (tr : List Postgres.Action)
    (b : List TransactionDetails)
    (h : ∀ i msgId, tr[i]? = some (.ack msgId) → ackPreceded tr i msgId = true) :
    ∀ i msgId,
      (tr ++ Postgres.Action.flushOk b ::
          (Postgres.acksOfBatch b).map Postgres.Action.ack)[i]? =
        some (.ack msgId) →
      ackPreceded (tr ++ Postgres.Action.flushOk b ::
          (Postgres.acksOfBatch b).map Postgres.Action.ack) i msgId = true := by
  intro i msgId hi
  by_cases hlt : i < tr.length
  · rw [List.getElem?_append_left hlt] at hi
    exact ackPreceded_mono _ _ _ _ (h i msgId hi)
  · have hge := le_of_not_lt hlt
    rw [List.getElem?_append_right hge] at hi
    rcases hk : i - tr.length with _ | k
    · rw [hk] at hi
      simp at hi
    · rw [hk] at hi
      simp only [List.getElem?_cons_succ] at hi
      have hmem : Postgres.Action.ack msgId ∈
          (Postgres.acksOfBatch b).map Postgres.Action.ack := List.getElem?_mem hi
      have hmem2 : msgId ∈ Postgres.acksOfBatch b := by
        obtain ⟨x, hx, hxe⟩ := List.mem_map.mp hmem
        cases hxe
        exact hx
      obtain ⟨t, ht, hteq⟩ : ∃ t ∈ b, t.messageID = msgId := by
        unfold Postgres.acksOfBatch at hmem2
        obtain ⟨t, htf, hte⟩ := List.mem_map.mp hmem2
        exact ⟨t, (List.mem_filter.mp htf).1, hte⟩
      unfold ackPreceded
      rw [List.any_eq_true]
      refine ⟨tr.length, List.mem_range.mpr (by omega), ?_⟩
      rw [List.getElem?_append_right (le_refl tr.length), Nat.sub_self]
      simp only [List.getElem?_cons_zero]
      exact List.any_eq_true.mpr ⟨t, ht, by simp [hteq]⟩

/-- The flush closure preserves justification of every acknowledgment in
the trace. -/
theorem loopFlush_ackSafe (fo : Postgres.FaultOracle) (clock : Postgres.Clock)
    (s : Postgres.LoopState)
    (h : ∀ i msgId, s.trace[i]? = some (.ack msgId) → ackPreceded s.trace i msgId = true) :
    ∀ i msgId,
      ((Postgres.loopFlush fo clock s).1).trace[i]? = some (.ack msgId) →
      ackPreceded ((Postgres.loopFlush fo clock s).1).trace i msgId = true := by
  unfold Postgres.loopFlush
  split
  · exact h
  · cases hw : Postgres.writeBatch (fo s.flushIdx) (clock s.flushIdx) s.db s.batch with
    | error e => exact ackSafe_append_flushFail s.trace s.batch e h
    | ok db2 => exact ackSafe_append_flushOk s.trace s.batch h

/-- One select-loop iteration preserves justification of every
acknowledgment in the trace. -/
theorem loopStep_ackSafe (fo : Postgres.FaultOracle) (clock : Postgres.Clock)
    (bs : Nat) (s : Postgres.LoopState) (e : Event)
    (h : ∀ i msgId, s.trace[i]? = some (.ack msgId) → ackPreceded s.trace i msgId = true) :
    ∀ i msgId,
      ((Postgres.loopStep fo clock bs s e).1).trace[i]? = some (.ack msgId) →
      ackPreceded ((Postgres.loopStep fo clock bs s e).1).trace i msgId = true := by
  cases e with
  | cancel => exact loopFlush_ackSafe fo clock s h
  | chanClosed => exact loopFlush_ackSafe fo clock s h
  | timerTick =>
      rcases hp : (Postgres.loopFlush fo clock s).2 with _ | e2
      · have hst : (Postgres.loopStep fo clock bs s .timerTick).1 =
            (Postgres.loopFlush fo clock s).1 := by
          simp only [Postgres.loopStep, hp]
        rw [hst]
        exact loopFlush_ackSafe fo clock s h
      · have hst : (Postgres.loopStep fo clock bs s .timerTick).1 =
            (Postgres.loopFlush fo clock s).1 := by
          simp only [Postgres.loopStep, hp]
        rw [hst]
        exact loopFlush_ackSafe fo clock s h
  | recv t =>
      have hs1 : (⟨s.batch ++ [t], s.db, s.flushIdx, s.trace⟩ : Postgres.LoopState).trace
          = s.trace := rfl
      by_cases hc : bs ≤ (s.batch ++ [t]).length
      · rcases hp : (Postgres.loopFlush fo clock ⟨s.batch ++ [t], s.db, s.flushIdx, s.trace⟩).2
          with _ | e2
        · have hst : (Postgres.loopStep fo clock bs s (.recv t)).1 =
              (Postgres.loopFlush fo clock ⟨s.batch ++ [t], s.db, s.flushIdx, s.trace⟩).1 := by
            simp only [Postgres.loopStep, hc, if_true, hp]
          rw [hst]
          exact loopFlush_ackSafe fo clock ⟨s.batch ++ [t], s.db, s.flushIdx, s.trace⟩ h
        · have hst : (Postgres.loopStep fo clock bs s (.recv t)).1 =
              (Postgres.loopFlush fo clock ⟨s.batch ++ [t], s.db, s.flushIdx, s.trace⟩).1 := by
            simp only [Postgres.loopStep, hc, if_true, hp]
          rw [hst]
          exact loopFlush_ackSafe fo clock ⟨s.batch ++ [t], s.db, s.flushIdx, s.trace⟩ h
      · have hst : (Postgres.loopStep fo clock bs s (.recv t)).1 =
            ⟨s.batch ++ [t], s.db, s.flushIdx, s.trace⟩ := by
          simp only [Postgres.loopStep, hc, if_false]
        rw [hst]
        exact h

/-- The whole run loop preserves justification of every acknowledgment
in the trace. -/
theorem loopRun_ackSafe (fo : Postgres.FaultOracle) (clock : Postgres.Clock) (bs : Nat) :
    ∀ (events : List Event) (s : Postgres.LoopState),
      (∀ i msgId, s.trace[i]? = some (.ack msgId) → ackPreceded s.trace i msgId = true) →
      ∀ i msgId,
        ((Postgres.loopRun fo clock bs s events).1).trace[i]? = some (.ack msgId) →
        ackPreceded ((Postgres.loopRun fo clock bs s events).1).trace i msgId = true := by
  intro events
  induction events with
  | nil => intro s h; exact h
  | cons e es ih =>
      intro s h
      have hstep := loopStep_ackSafe fo clock bs s e h
      unfold Postgres.loopRun
      rcases hs : Postgres.loopStep fo clock bs s e with ⟨s2, r⟩
      have hs2 : ∀ i msgId, s2.trace[i]? = some (.ack msgId) →
          ackPreceded s2.trace i msgId = true := by
        intro i msgId hi
        have he : s2 = (Postgres.loopStep fo clock bs s e).1 := by rw [hs]
        rw [he] at hi ⊢
        exact hstep i msgId hi
      cases r with
      | none => simpa using ih s2 hs2
      | some r => simpa using hs2

/-- The reader's acknowledgment handler marks exactly the identifiers it
receives, in order. -/
theorem handleAcknowledgments_eq (l : List String) : Gmail.handleAcknowledgments l = l := by
  induction l with
  | nil => rfl
  | cons a l ih => unfold Gmail.handleAcknowledgments; rw [ih]

/-- C1: acknowledgment-gated consumption. In every postgres writer run,
an acknowledgment of a message identifier appears in the trace only
after a successful writeBatch of a batch containing a record with that
identifier; hence every message the daemon pipeline marks consumed was
part of some successfully flushed batch. -/
theorem c1_ack_gated_consumption :
    (∀ (fo : Postgres.FaultOracle) (clock : Postgres.Clock) (bs : Nat)
        (db : Postgres.DB) (events : List Event) (i : Nat) (msgId : String),
        (Postgres.pipelineTrace fo clock bs db events)[i]? =
          some (.ack msgId) →
        ackPreceded (Postgres.pipelineTrace fo clock bs db events) i msgId = true) ∧
    (∀ (fo : Postgres.FaultOracle) (clock : Postgres.Clock) (bs : Nat)
        (db : Postgres.DB) (events : List Event) (msgId : String),
        msgId ∈ daemonMarkedConsumed fo clock bs db events →
        flushedOk (Postgres.pipelineTrace fo clock bs db events) msgId = true) := by
  have hmain : ∀ (fo : Postgres.FaultOracle) (clock : Postgres.Clock) (bs : Nat)
      (db : Postgres.DB) (events : List Event) (i : Nat) (msgId : String),
      (Postgres.pipelineTrace fo clock bs db events)[i]? = some (.ack msgId) →
      ackPreceded (Postgres.pipelineTrace fo clock bs db events) i msgId = true := by
    intro fo clock bs db events i msgId hi
    exact loopRun_ackSafe fo clock bs events (Postgres.initLoop db)
      (by intro j m hj; simp [Postgres.initLoop] at hj) i msgId hi
  refine ⟨hmain, ?_⟩
  intro fo clock bs db events msgId hmem
  unfold daemonMarkedConsumed at hmem
  rw [handleAcknowledgments_eq] at hmem
  unfold acksOf at hmem
  obtain ⟨a, ha, hae⟩ := List.mem_filterMap.mp hmem
  have hack : a = Postgres.Action.ack msgId := by
    cases a <;> simp at hae
    rw [hae]
  subst hack
  obtain ⟨i, hi⟩ := exists_getElem?_of_mem ha
  have hp := hmain fo clock bs db events i msgId hi
  unfold ackPreceded at hp
  rw [List.any_eq_true] at hp
  obtain ⟨j, _, hj⟩ := hp
  unfold flushedOk
  rw [List.any_eq_true]
  cases hx : (Postgres.pipelineTrace fo clock bs db events)[j]? with
  | none => rw [hx] at hj; simp at hj
  | some a2 =>
      rw [hx] at hj
      cases a2 with
      | flushOk b =>
          exact ⟨Postgres.Action.flushOk b, List.getElem?_mem hx, hj⟩
      | flushFail b e => simp at hj
      | ack m2 => simp at hj

/-- Witness for C1: a one-record run whose acknowledgment at trace
position 1 is justified by the successful flush at position 0. -/
theorem c1_ack_gated_consumption_witness :
    ackPreceded (Postgres.pipelineTrace neverFails fixedClock 1 Postgres.emptyDB
        [Event.recv sampleRecord, Event.chanClosed]) 1 "msg-1" = true :=
  c1_ack_gated_consumption.1 neverFails fixedClock 1 Postgres.emptyDB
    [Event.recv sampleRecord, Event.chanClosed] 1 "msg-1" rfl

end Expensor
